import Mathlib

set_option exponentiation.threshold 600

/-! Scene structures of the CUDA path tracer (`src/sceneStructs.h`).

A shallow embedding of the structures and member functions of
`sceneStructs.h`, followed by theorems about them.

Conventions of the embedding.

* A C++ `float` is an element of a type `F`.  The definitions only use the
  operations the source uses (`-`, `*`, `<`, ...), so they run on any `F`
  that has them.  `F32` below is binary32 arithmetic: every operation is
  the exact one followed by rounding to nearest, with infinities and NaN.
  Properties that rounding touches are stated on `F32`; properties that only
  compare or copy scalars are stated for any ordered `F`.  `IEEE K` is the
  arithmetic of the special values alone, finite results being exact.
* `glm` is a third-party library.  The few functions of it that the source
  calls are transcribed from GLM (`detail/func_common.inl`,
  `detail/func_geometric.inl`).
* A C++ `int` is an `Int`; `unsigned int` flags are `Nat`.
* A member function that mutates `*this` returns the new object.
-/

namespace glm

/-- The type `glm::vec3`: three scalars. -/
@[ext] structure vec3 (F : Type) where
  x : F
  y : F
  z : F
deriving DecidableEq

/-- The type `glm::vec2`: two scalars. -/
@[ext] structure vec2 (F : Type) where
  x : F
  y : F

/-- The type `glm::ivec3`: three ints. -/
@[ext] structure ivec3 where
  x : Int
  y : Int
  z : Int

/-- The type `glm::ivec2`: two ints. -/
@[ext] structure ivec2 where
  x : Int
  y : Int

/-- Scalar `glm::min(x, y)`, which GLM defines as `(y < x) ? y : x`. -/
def min {F : Type} [LT F] [(a b : F) → Decidable (a < b)] (x y : F) : F :=
  if y < x then y else x

/-- Scalar `glm::max(x, y)`, which GLM defines as `(x < y) ? y : x`. -/
def max {F : Type} [LT F] [(a b : F) → Decidable (a < b)] (x y : F) : F :=
  if x < y then y else x

namespace vec3

variable {F : Type}

/-- The constructor `glm::vec3(s)`: all three components equal to `s`. -/
def splat (s : F) : vec3 F := ⟨s, s, s⟩

/-- Componentwise `a + b`. -/
def add [Add F] (a b : vec3 F) : vec3 F := ⟨a.x + b.x, a.y + b.y, a.z + b.z⟩

/-- Componentwise `a - b`. -/
def sub [Sub F] (a b : vec3 F) : vec3 F := ⟨a.x - b.x, a.y - b.y, a.z - b.z⟩

/-- Componentwise `a * b`. -/
def mul [Mul F] (a b : vec3 F) : vec3 F := ⟨a.x * b.x, a.y * b.y, a.z * b.z⟩

/-- Scalar times vector, `s * v`. -/
def smul [Mul F] (s : F) (v : vec3 F) : vec3 F := ⟨s * v.x, s * v.y, s * v.z⟩

/-- Vector times scalar, `v * s`. -/
def muls [Mul F] (v : vec3 F) (s : F) : vec3 F := ⟨v.x * s, v.y * s, v.z * s⟩

/-- Scalar divided by vector, `s / v`, componentwise. -/
def sdiv [Div F] (s : F) (v : vec3 F) : vec3 F := ⟨s / v.x, s / v.y, s / v.z⟩

/-- Vector `glm::min(a, b)`: the scalar `glm::min` on each component. -/
def min [LT F] [(a b : F) → Decidable (a < b)] (a b : vec3 F) : vec3 F :=
  ⟨glm.min a.x b.x, glm.min a.y b.y, glm.min a.z b.z⟩

/-- Vector `glm::max(a, b)`: the scalar `glm::max` on each component. -/
def max [LT F] [(a b : F) → Decidable (a < b)] (a b : vec3 F) : vec3 F :=
  ⟨glm.max a.x b.x, glm.max a.y b.y, glm.max a.z b.z⟩

/-- The function `glm::dot(a, b)`. -/
def dot [Add F] [Mul F] (a b : vec3 F) : F := a.x * b.x + a.y * b.y + a.z * b.z

/-- The function `glm::cross(a, b)`. -/
def cross [Sub F] [Mul F] (a b : vec3 F) : vec3 F :=
  ⟨a.y * b.z - b.y * a.z, a.z * b.x - b.z * a.x, a.x * b.y - b.x * a.y⟩

/-- The function `glm::inversesqrt(x) = 1 / sqrt(x)`, over a given square
root function. -/
def inversesqrt [One F] [Div F] (sqrt : F → F) (x : F) : F := 1 / sqrt x

/-- The function `glm::normalize(v) = v * inversesqrt(dot(v, v))`, over a
given square root function. -/
def normalize [One F] [Add F] [Mul F] [Div F] (sqrt : F → F) (v : vec3 F) : vec3 F :=
  muls v (inversesqrt sqrt (dot v v))

/-- The function `glm::length(v) = sqrt(dot(v, v))`, over a given square
root function. -/
def length [Add F] [Mul F] (sqrt : F → F) (v : vec3 F) : F := sqrt (dot v v)

/-- Component access `v[i]`: component 0 is `x`, 1 is `y`, 2 is `z`. -/
def get (v : vec3 F) (i : Int) : F := if i = 0 then v.x else if i = 1 then v.y else v.z

/-- Apply a function to each component. -/
def map {G : Type} (f : F → G) (v : vec3 F) : vec3 G := ⟨f v.x, f v.y, f v.z⟩

end vec3

end glm

open glm

/-- IEEE-754 values with the finite ones carried exactly in `K`: what
matters here is how the infinities and NaN propagate, not rounding. -/
inductive IEEE (K : Type) where
  | fin (v : K)
  | pinf
  | ninf
  | nan
deriving DecidableEq

namespace IEEE

variable {K : Type}

/-- IEEE subtraction: `inf - inf` of equal signs is NaN. -/
def sub [Sub K] : IEEE K → IEEE K → IEEE K
  | fin a, fin b => fin (a - b)
  | fin _, pinf => ninf
  | fin _, ninf => pinf
  | pinf, fin _ => pinf
  | pinf, ninf => pinf
  | pinf, pinf => nan
  | ninf, fin _ => ninf
  | ninf, pinf => ninf
  | ninf, ninf => nan
  | nan, _ => nan
  | _, nan => nan

/-- The product of a finite value with `+inf`: the sign of the value
decides, and `0 * inf` is NaN. -/
def mulPinf [Zero K] [LT K] [(a b : K) → Decidable (a < b)] (a : K) : IEEE K :=
  if 0 < a then pinf else if a < 0 then ninf else nan

/-- The product of a finite value with `-inf`. -/
def mulNinf [Zero K] [LT K] [(a b : K) → Decidable (a < b)] (a : K) : IEEE K :=
  if 0 < a then ninf else if a < 0 then pinf else nan

/-- IEEE multiplication. -/
def mul [Zero K] [Mul K] [LT K] [(a b : K) → Decidable (a < b)] :
    IEEE K → IEEE K → IEEE K
  | fin a, fin b => fin (a * b)
  | fin a, pinf => mulPinf a
  | fin a, ninf => mulNinf a
  | pinf, fin b => mulPinf b
  | ninf, fin b => mulNinf b
  | pinf, pinf => pinf
  | pinf, ninf => ninf
  | ninf, pinf => ninf
  | ninf, ninf => pinf
  | nan, _ => nan
  | _, nan => nan

/-- IEEE addition: `inf + (-inf)` is NaN. -/
def add [Add K] : IEEE K → IEEE K → IEEE K
  | fin a, fin b => fin (a + b)
  | fin _, pinf => pinf
  | fin _, ninf => ninf
  | pinf, fin _ => pinf
  | pinf, pinf => pinf
  | pinf, ninf => nan
  | ninf, fin _ => ninf
  | ninf, ninf => ninf
  | ninf, pinf => nan
  | nan, _ => nan
  | _, nan => nan

/-- IEEE division.  A finite zero is taken as `+0` (the sign of a zero is
not kept): `a / 0` is `+inf`, `-inf` or NaN by the sign of `a`. -/
def div [Zero K] [Div K] [LT K] [(a b : K) → Decidable (a < b)] :
    IEEE K → IEEE K → IEEE K
  | fin a, fin b => if 0 < b ∨ b < 0 then fin (a / b) else mulPinf a
  | fin _, pinf => fin 0
  | fin _, ninf => fin 0
  | pinf, fin b => if b < 0 then ninf else pinf
  | ninf, fin b => if b < 0 then pinf else ninf
  | pinf, pinf => nan
  | pinf, ninf => nan
  | ninf, pinf => nan
  | ninf, ninf => nan
  | nan, _ => nan
  | _, nan => nan

/-- IEEE `<` as a Boolean: every comparison with NaN is false. -/
def blt [LT K] [(a b : K) → Decidable (a < b)] : IEEE K → IEEE K → Bool
  | fin a, fin b => decide (a < b)
  | fin _, pinf => true
  | ninf, fin _ => true
  | ninf, pinf => true
  | _, _ => false

instance [Sub K] : Sub (IEEE K) := ⟨IEEE.sub⟩

instance [Zero K] [Mul K] [LT K] [(a b : K) → Decidable (a < b)] : Mul (IEEE K) :=
  ⟨IEEE.mul⟩

instance [Add K] : Add (IEEE K) := ⟨IEEE.add⟩

instance [Zero K] [Div K] [LT K] [(a b : K) → Decidable (a < b)] : Div (IEEE K) :=
  ⟨IEEE.div⟩

instance [LT K] [(a b : K) → Decidable (a < b)] : LT (IEEE K) :=
  ⟨fun a b => IEEE.blt a b = true⟩

instance [LT K] [(a b : K) → Decidable (a < b)] (a b : IEEE K) : Decidable (a < b) :=
  inferInstanceAs (Decidable (IEEE.blt a b = true))

/-- IEEE `<=` as a Boolean: every comparison with NaN is false. -/
def ble [LE K] [(a b : K) → Decidable (a ≤ b)] : IEEE K → IEEE K → Bool
  | fin a, fin b => decide (a ≤ b)
  | fin _, pinf => true
  | ninf, fin _ => true
  | ninf, pinf => true
  | ninf, ninf => true
  | pinf, pinf => true
  | _, _ => false

instance [LE K] [(a b : K) → Decidable (a ≤ b)] : LE (IEEE K) :=
  ⟨fun a b => IEEE.ble a b = true⟩

instance [LE K] [(a b : K) → Decidable (a ≤ b)] (a b : IEEE K) : Decidable (a ≤ b) :=
  inferInstanceAs (Decidable (IEEE.ble a b = true))

end IEEE

/-- The struct `Ray`: origin and direction. -/
structure Ray (F : Type) where
  origin : vec3 F
  direction : vec3 F

namespace Ray

variable {F : Type}

/-- The member `Ray::operator*(t)`: `origin + t * direction`. -/
def mul [Add F] [Mul F] (r : Ray F) (t : F) : vec3 F :=
  vec3.add r.origin (vec3.smul t r.direction)

/-- The static member `Ray::SpawnRay(o, dir)`: `{ o + dir * 0.001f, dir }`. -/
def SpawnRay [Add F] [Mul F] [OfScientific F] (o dir : vec3 F) : Ray F :=
  ⟨vec3.add o (vec3.muls dir 0.001), dir⟩

end Ray

/-- The struct `AABB`: the two corners and the auxiliary `m_Data`. -/
structure AABB (F : Type) where
  m_Min : vec3 F
  m_Max : vec3 F
  m_Data : ivec3

/-- The default-constructed box `AABB()`: the constructor
`AABB(_min = glm::vec3(Float_MAX), _max = glm::vec3(Float_MIN))` stores its
two arguments and does not initialise `m_Data`, whose content is therefore
an argument here.  The constants `Float_MAX` and `Float_MIN` are defined
outside `sceneStructs.h` and are arguments too. -/
def AABB.empty {F : Type} (Float_MAX Float_MIN : F) (data : ivec3) : AABB F :=
  ⟨vec3.splat Float_MAX, vec3.splat Float_MIN, data⟩

namespace AABB

variable {F : Type}

/-- The member `AABB::Merge(const AABB& other)`. -/
def Merge [LT F] [(a b : F) → Decidable (a < b)] (self other : AABB F) : AABB F :=
  { self with
    m_Min := vec3.min self.m_Min other.m_Min
    m_Max := vec3.max self.m_Max other.m_Max }

/-- The member `AABB::Merge(const glm::vec3& p)`. -/
def MergePoint [LT F] [(a b : F) → Decidable (a < b)] (self : AABB F) (p : vec3 F) :
    AABB F :=
  { self with
    m_Min := vec3.min p self.m_Min
    m_Max := vec3.max p self.m_Max }

/-- The member `AABB::GetDiagnol`: `m_Max - m_Min`. -/
def GetDiagnol [Sub F] (self : AABB F) : vec3 F := vec3.sub self.m_Max self.m_Min

/-- The member `AABB::GetMaxAxis`:
`(d.x > d.y && d.x > d.z) ? 0 : ((d.y > d.z) ? 1 : 2)`. -/
def GetMaxAxis [Sub F] [LT F] [(a b : F) → Decidable (a < b)] (self : AABB F) : Int :=
  let d := self.GetDiagnol
  if d.x > d.y ∧ d.x > d.z then 0 else (if d.y > d.z then 1 else 2)

/-- The member `AABB::GetCost`: `2.0f * (d.x * d.y + d.x * d.z + d.y * d.z)`
for the diagonal `d`. -/
def GetCost [OfNat F 2] [Add F] [Sub F] [Mul F] (self : AABB F) : F :=
  let d := self.GetDiagnol
  2 * (d.x * d.y + d.x * d.z + d.y * d.z)

/-- The member `AABB::Intersection(ray, inv_dir, t)`: the returned pair is
the Boolean result and the value left in the output parameter `t`, which is
written before the test. -/
def Intersection [Sub F] [Mul F] [LT F] [(a b : F) → Decidable (a < b)]
    (self : AABB F) (ray : Ray F) (inv_dir : vec3 F) : Bool × F :=
  let t_near := vec3.mul (vec3.sub self.m_Min ray.origin) inv_dir
  let t_far := vec3.mul (vec3.sub self.m_Max ray.origin) inv_dir
  let t_min := vec3.min t_near t_far
  let t_max := vec3.max t_near t_far
  let t := glm.max (glm.max t_min.x t_min.y) t_min.z
  if t > glm.min (glm.min t_max.x t_max.y) t_max.z then (false, t) else (true, t)

/-- A point lies in the closed box. -/
def Contains [LE F] (self : AABB F) (p : vec3 F) : Prop :=
  (self.m_Min.x ≤ p.x ∧ p.x ≤ self.m_Max.x) ∧
  (self.m_Min.y ≤ p.y ∧ p.y ≤ self.m_Max.y) ∧
  (self.m_Min.z ≤ p.z ∧ p.z ≤ self.m_Max.z)

/-- Box `outer` contains box `inner`: corner-wise comparison. -/
def ContainsBox [LE F] (outer inner : AABB F) : Prop :=
  (outer.m_Min.x ≤ inner.m_Min.x ∧ outer.m_Min.y ≤ inner.m_Min.y ∧
    outer.m_Min.z ≤ inner.m_Min.z) ∧
  (inner.m_Max.x ≤ outer.m_Max.x ∧ inner.m_Max.y ≤ outer.m_Max.y ∧
    inner.m_Max.z ≤ outer.m_Max.z)

end AABB



/-- Modelled from the spec: the macro `BIT(x)` is defined in `common.h`,
outside `sceneStructs.h`; the spec calls the enumerators built from it
bit-flags, so `BIT(x)` is the single-bit mask `1 << x`. -/
def BIT (x : Nat) : Nat := 1 <<< x

namespace MaterialType

/-- The enumerator `None`. -/
def None : Nat := 0

/-- The enumerator `Albedo_Texture`. -/
def Albedo_Texture : Nat := BIT 27

/-- The enumerator `Normal_Texture`. -/
def Normal_Texture : Nat := BIT 28

/-- The enumerator `Roughness_Texture`. -/
def Roughness_Texture : Nat := BIT 29

/-- The enumerator `Metallic_Texture`. -/
def Metallic_Texture : Nat := BIT 30

/-- The enumerator `Clear_Texture`: the 32-bit complement of the four
texture flags. -/
def Clear_Texture : Nat :=
  (2 ^ 32 - 1) ^^^ (Albedo_Texture ||| Normal_Texture ||| Roughness_Texture ||| Metallic_Texture)

/-- The enumerator `Specular`. -/
def Specular : Nat := BIT 6

/-- The enumerator `Microfacet`. -/
def Microfacet : Nat := BIT 7

/-- The enumerator `DiffuseReflection`. -/
def DiffuseReflection : Nat := 1

/-- The enumerator `SpecularReflection`. -/
def SpecularReflection : Nat := Specular ||| 2

/-- The enumerator `SpecularGlass`. -/
def SpecularGlass : Nat := Specular ||| 3

/-- The enumerator `MicrofacetReflection`. -/
def MicrofacetReflection : Nat := Microfacet ||| 2

/-- The enumerator `MicrofacetMix`. -/
def MicrofacetMix : Nat := Microfacet ||| 3

/-- The enumerator `SubsurfaceScattering`. -/
def SubsurfaceScattering : Nat := 5

end MaterialType

/-- The macro `IsSpecular(type)`: `(MaterialType::Specular & type) > 0`. -/
def IsSpecular (type : Nat) : Bool := decide ((MaterialType.Specular &&& type) > 0)

/-- The four property names that `HasTexture` pastes into
`MaterialType::<name>_Texture`. -/
inductive TextureKind where
  | Albedo
  | Normal
  | Roughness
  | Metallic
deriving DecidableEq

/-- The enumerator `MaterialType::<name>_Texture` of a property name. -/
def TextureKind.flag : TextureKind → Nat
  | .Albedo => MaterialType.Albedo_Texture
  | .Normal => MaterialType.Normal_Texture
  | .Roughness => MaterialType.Roughness_Texture
  | .Metallic => MaterialType.Metallic_Texture

/-- The macro `HasTexture(type, t_type)`:
`(MaterialType::t_type_Texture & type) > 0`. -/
def HasTexture (type : Nat) (t_type : TextureKind) : Bool :=
  decide ((t_type.flag &&& type) > 0)

/-- The function `StringToMaterialType`: six `TryStr2Type` lines, each
`if (str == "<name>") return MaterialType::<name>;`, then `None`. -/
def StringToMaterialType (str : String) : Nat :=
  if str = "DiffuseReflection" then MaterialType.DiffuseReflection
  else if str = "SpecularReflection" then MaterialType.SpecularReflection
  else if str = "SpecularGlass" then MaterialType.SpecularGlass
  else if str = "MicrofacetReflection" then MaterialType.MicrofacetReflection
  else if str = "MicrofacetMix" then MaterialType.MicrofacetMix
  else if str = "SubsurfaceScattering" then MaterialType.SubsurfaceScattering
  else MaterialType.None

/-- The CUDA type `float4`. -/
structure float4 (F : Type) where
  x : F
  y : F
  z : F
  w : F

/-- Modelled from the spec: the class `CudaTexture2D` is defined in
`cudaTexture.h`, outside `sceneStructs.h`; by the spec it is an object that
exposes `Valid()`, a Boolean, and `Get(u, v)`, a four-component float
sample. -/
structure CudaTexture2D (F : Type) where
  valid : Bool
  sample : F → F → float4 F

namespace CudaTexture2D

variable {F : Type}

/-- The member `CudaTexture2D::Valid()`. -/
def Valid (t : CudaTexture2D F) : Bool := t.valid

/-- The member `CudaTexture2D::Get(u, v)`. -/
def Get (t : CudaTexture2D F) (u v : F) : float4 F := t.sample u v

end CudaTexture2D

namespace Material

/-- The struct `Material::MaterialTextures`. -/
structure MaterialTextures (F : Type) where
  roughness_tex : CudaTexture2D F
  metallic_tex : CudaTexture2D F
  albedo_tex : CudaTexture2D F
  normal_tex : CudaTexture2D F

/-- The struct `Material::MaterialValues`. -/
structure MaterialValues (F : Type) where
  roughness : F
  metallic : F
  albedo : vec3 F

/-- The union `Material::MaterialUnionData`.  The two members are two
readings of one storage; how the bytes of one show through the other is a
matter of memory layout and is left open: an object carries both readings. -/
structure MaterialUnionData (F : Type) where
  values : MaterialValues F
  textures : MaterialTextures F

namespace MaterialUnionData

variable {F : Type}

/-- The copy constructor `MaterialUnionData(const MaterialUnionData& other)`,
whose only initialiser is `values(other.values)`.  The object is built in
storage whose previous content is `raw`; the constructor writes the member
`values` and nothing else, so the `textures` reading keeps what `raw` held
wherever `values` does not cover it (which bytes those are is a matter of
layout; the model keeps the whole reading). -/
def copy (raw other : MaterialUnionData F) : MaterialUnionData F :=
  { raw with values := other.values }

/-- The member `MaterialUnionData::operator=`: `values = other.values;
textures = other.textures;` (the source has no `return` statement; the
effect on the object is what is kept here). -/
def assign (_self other : MaterialUnionData F) : MaterialUnionData F :=
  { values := other.values, textures := other.textures }

end MaterialUnionData

end Material

/-- The struct `Material`. -/
structure Material (F : Type) where
  type : Nat
  emittance : F
  eta : F
  data : Material.MaterialUnionData F

namespace Material

variable {F : Type}

/-- The copy constructor `Material(const Material& other)`:
`type(other.type), emittance(other.emittance), eta(other.eta),
data(other.data)`; `raw` is the previous content of the storage the object
is built in. -/
def copy (raw other : Material F) : Material F :=
  { type := other.type
    emittance := other.emittance
    eta := other.eta
    data := MaterialUnionData.copy raw.data other.data }

/-- The member `Material::operator=`. -/
def assign (self other : Material F) : Material F :=
  { type := other.type
    emittance := other.emittance
    eta := other.eta
    data := MaterialUnionData.assign self.data other.data }

/-- The member `Material::GetAlbedo(uv)`. -/
def GetAlbedo (self : Material F) (uv : vec2 F) : vec3 F :=
  if HasTexture self.type .Albedo && self.data.textures.albedo_tex.Valid then
    let tex_value := self.data.textures.albedo_tex.Get uv.x uv.y
    ⟨tex_value.x, tex_value.y, tex_value.z⟩
  else
    self.data.values.albedo

/-- The member `Material::GetNormal(uv, normal)`; the result is the value
left in the reference parameter `normal`.  `LocalToWorld n v` stands for the
product `LocalToWorld(n) * v`, whose first factor is defined in
`utilities.h`, and `normalize` for `glm::normalize`; both are arguments. -/
def GetNormal (LocalToWorld : vec3 F → vec3 F → vec3 F) (normalize : vec3 F → vec3 F)
    (self : Material F) (uv : vec2 F) (normal : vec3 F) : vec3 F :=
  if HasTexture self.type .Normal && self.data.textures.normal_tex.Valid then
    let tex_value := self.data.textures.normal_tex.Get uv.x uv.y
    let tex_normal : vec3 F := ⟨tex_value.x, tex_value.y, tex_value.z⟩
    normalize (LocalToWorld normal tex_normal)
  else
    normal

/-- The member `Material::GetRoughness(uv)`. -/
def GetRoughness (self : Material F) (uv : vec2 F) : F :=
  if HasTexture self.type .Roughness && self.data.textures.roughness_tex.Valid then
    let tex_value := self.data.textures.roughness_tex.Get uv.x uv.y
    tex_value.x
  else
    self.data.values.roughness

/-- The member `Material::GetMetallic(uv)`. -/
def GetMetallic (self : Material F) (uv : vec2 F) : F :=
  if HasTexture self.type .Metallic && self.data.textures.metallic_tex.Valid then
    let tex_value := self.data.textures.metallic_tex.Get uv.x uv.y
    tex_value.x
  else
    self.data.values.metallic

end Material

/-- The struct `Camera`. -/
structure Camera (F : Type) where
  resolution : ivec2
  position : vec3 F
  ref : vec3 F
  forward : vec3 F
  up : vec3 F
  right : vec3 F
  fovy : F
  lenRadius : F
  focalDistance : F
  path_depth : Int

namespace Camera

variable {F : Type}

/-- The member `Camera::Recompute()`, over the square root function that
`glm::normalize` uses. -/
def Recompute [Zero F] [One F] [Add F] [Sub F] [Mul F] [Div F] (sqrt : F → F)
    (self : Camera F) : Camera F :=
  let forward := vec3.normalize sqrt (vec3.sub self.ref self.position)
  let right := vec3.normalize sqrt (vec3.cross forward ⟨0, 1, 0⟩)
  let up := vec3.normalize sqrt (vec3.cross right forward)
  { self with forward := forward, right := right, up := up }

end Camera

/-- The struct `PathSegment`. -/
structure PathSegment (F : Type) where
  ray : Ray F
  throughput : vec3 F
  radiance : vec3 F
  pixelIndex : Int
  remainingBounces : Int
  mediaId : Int

namespace PathSegment

variable {F : Type}

/-- The member `PathSegment::Reset()`. -/
def Reset [Zero F] [One F] (self : PathSegment F) : PathSegment F :=
  { self with
    throughput := vec3.splat 1
    radiance := vec3.splat 0
    pixelIndex := 0
    mediaId := -1 }

/-- The member `PathSegment::Terminate()`. -/
def Terminate (self : PathSegment F) : PathSegment F :=
  { self with remainingBounces := 0 }

/-- The member `PathSegment::IsEnd()`. -/
def IsEnd (self : PathSegment F) : Bool := decide (self.remainingBounces ≤ 0)

/-- The assignment `segment.remainingBounces = camera.path_depth` made by a
caller that starts a path. -/
def setRemainingBounces (self : PathSegment F) (path_depth : Int) : PathSegment F :=
  { self with remainingBounces := path_depth }

end PathSegment

/-! ## Binary32 arithmetic

The scalars of the program are IEEE-754 binary32 values.  `F32` carries such
a value as an `IEEE ℚ`; every arithmetic operation computes the exact result
and rounds it to the nearest binary32 value, ties to even, with gradual
underflow and overflow to infinity.  The sign of a zero is not kept. -/

/-- The position of the highest set bit, by halving; `fuel` bounds the
number of halvings. -/
def ilog2Aux : Nat → Nat → Nat
  | 0, _ => 0
  | fuel + 1, n => if n < 2 then 0 else ilog2Aux fuel (n / 2) + 1

/-- The position of the highest set bit of `n`: `floor (log2 n)` for
`n > 0`. -/
def ilog2 (n : Nat) : Nat := ilog2Aux n n

/-- The integer square root, bit by bit from bit `i - 1` down. -/
def isqrtAux (n : Nat) : Nat → Nat → Nat
  | 0, r => r
  | i + 1, r => isqrtAux n i (if (r + 2 ^ i) * (r + 2 ^ i) ≤ n then r + 2 ^ i else r)

/-- The integer square root `floor (sqrt n)`. -/
def isqrt (n : Nat) : Nat := isqrtAux n (ilog2 n / 2 + 1) 0

/-- Rounding of a rational to binary32, to nearest with ties to even.  In
units of `2^-149` (the smallest subnormal) the value is `N / D`; the spacing
of binary32 values around it is `2^k` units, with `k = 0` below `2^24` units
and 24 significant bits above; a rounded magnitude of `2^277` units (`2^128`)
or more is an overflow. -/
def round32 (q : ℚ) : IEEE ℚ :=
  if q.num = 0 then IEEE.fin 0 else
  let N := q.num.natAbs * 2 ^ 149
  let D := q.den
  let f := N / D
  let k := if f < 2 ^ 24 then 0 else ilog2 f - 23
  let den := D * 2 ^ k
  let m := N / den
  let rem := N % den
  let m1 := if 2 * rem < den then m else if den < 2 * rem then m + 1
    else if m % 2 = 0 then m else m + 1
  let res := m1 * 2 ^ k
  if 2 ^ 277 ≤ res then (if 0 < q.num then IEEE.pinf else IEEE.ninf)
  else IEEE.fin (if 0 < q.num then (res : ℚ) / 2 ^ 149 else -((res : ℚ) / 2 ^ 149))

/-- The correctly rounded binary32 square root of a rational.  With
`s = floor (sqrt q * 2^160)`: when `s` is the exact root the result is the
rounding of `s / 2^160`; otherwise the root lies strictly between two
neighbouring multiples of `2^-160`, no binary32 value or midpoint of two lies
between them, and the result is the rounding of the point half-way. -/
def sqrt32 (q : ℚ) : IEEE ℚ :=
  if q.num < 0 then IEEE.nan else
  let n := q.num.natAbs * 4 ^ 160 / q.den
  let s := isqrt n
  if s * s * q.den = q.num.natAbs * 4 ^ 160 then round32 ((s : ℚ) / 2 ^ 160)
  else round32 ((2 * s + 1 : ℕ) / 2 ^ 161)

/-- Rounding of an IEEE value: a finite value is rounded to binary32, an
infinity or NaN is kept. -/
def IEEE.rnd : IEEE ℚ → IEEE ℚ
  | .fin q => round32 q
  | v => v

/-- A binary32 value. -/
structure F32 where
  val : IEEE ℚ
deriving DecidableEq

namespace F32

/-- The binary32 value that is the rational `q`, for a `q` that binary32
represents. -/
def ofRat (q : ℚ) : F32 := ⟨IEEE.fin q⟩

instance : Zero F32 := ⟨ofRat 0⟩

instance : One F32 := ⟨ofRat 1⟩

instance : Add F32 := ⟨fun a b => ⟨IEEE.rnd (a.val + b.val)⟩⟩

instance : Sub F32 := ⟨fun a b => ⟨IEEE.rnd (a.val - b.val)⟩⟩

instance : Mul F32 := ⟨fun a b => ⟨IEEE.rnd (a.val * b.val)⟩⟩

instance : Div F32 := ⟨fun a b => ⟨IEEE.rnd (a.val / b.val)⟩⟩

instance : LT F32 := ⟨fun a b => a.val < b.val⟩

instance (a b : F32) : Decidable (a < b) := inferInstanceAs (Decidable (a.val < b.val))

instance : LE F32 := ⟨fun a b => a.val ≤ b.val⟩

instance (a b : F32) : Decidable (a ≤ b) := inferInstanceAs (Decidable (a.val ≤ b.val))

/-- A decimal literal with the suffix `f`, such as `0.001f`: the binary32
value nearest to the decimal. -/
instance : OfScientific F32 :=
  ⟨fun m s e => ⟨round32 (OfScientific.ofScientific m s e)⟩⟩

/-- The binary32 square root: NaN for a negative argument and for NaN. -/
def sqrt (a : F32) : F32 :=
  match a.val with
  | .fin q => ⟨sqrt32 q⟩
  | .pinf => ⟨.pinf⟩
  | .ninf => ⟨.nan⟩
  | .nan => ⟨.nan⟩

end F32

/-! ## Notions used to state the properties -/

/-- The entry parameter of the line into the slab of one axis: the smaller
of the parameters at the two planes. -/
def slabEntry {F : Type} [LinearOrderedField F] (mn mx o d : F) : F :=
  Min.min ((mn - o) / d) ((mx - o) / d)

/-- All three components lie in `[-MAX, MAX]`. -/
def InRange {F : Type} [LinearOrderedField F] (MAX : F) (v : vec3 F) : Prop :=
  (-MAX ≤ v.x ∧ v.x ≤ MAX) ∧ (-MAX ≤ v.y ∧ v.y ≤ MAX) ∧ (-MAX ≤ v.z ∧ v.z ≤ MAX)

/-- What `inv_dir = 1 / direction` gives for one component: the exact
reciprocal of a non-zero component, and `+inf` or `-inf` (by the sign of the
zero) for a zero component. -/
def IsRecip {K : Type} [LinearOrderedField K] (d : K) (i : IEEE K) : Prop :=
  (d ≠ 0 ∧ i = IEEE.fin (1 / d)) ∨ (d = 0 ∧ (i = IEEE.pinf ∨ i = IEEE.ninf))

/-- The pair `lo`, `hi` of extended values (neither NaN) describes the
parameters that satisfy `P`: those `s` with `lo <= s <= hi`, the comparisons
being IEEE ones. -/
def Slab {K : Type} [LinearOrderedField K] (P : K → Prop) (lo hi : IEEE K) : Prop :=
  lo ≠ IEEE.nan ∧ hi ≠ IEEE.nan ∧
    ∀ s, P s ↔ (¬ IEEE.fin s < lo ∧ ¬ hi < IEEE.fin s)

/-- Two vectors are parallel: one is a scalar multiple of the other. -/
def Parallel {F : Type} [Mul F] (v w : vec3 F) : Prop := ∃ k : F, v = vec3.smul k w

/-- The six lobe types of `MaterialType`. -/
inductive Lobe where
  | DiffuseReflection
  | SpecularReflection
  | SpecularGlass
  | MicrofacetReflection
  | MicrofacetMix
  | SubsurfaceScattering
deriving DecidableEq

/-- The enumerator of a lobe type. -/
def Lobe.toType : Lobe → Nat
  | .DiffuseReflection => MaterialType.DiffuseReflection
  | .SpecularReflection => MaterialType.SpecularReflection
  | .SpecularGlass => MaterialType.SpecularGlass
  | .MicrofacetReflection => MaterialType.MicrofacetReflection
  | .MicrofacetMix => MaterialType.MicrofacetMix
  | .SubsurfaceScattering => MaterialType.SubsurfaceScattering

/-- The identifier of a lobe type, as `StringToMaterialType` reads it. -/
def Lobe.ident : Lobe → String
  | .DiffuseReflection => "DiffuseReflection"
  | .SpecularReflection => "SpecularReflection"
  | .SpecularGlass => "SpecularGlass"
  | .MicrofacetReflection => "MicrofacetReflection"
  | .MicrofacetMix => "MicrofacetMix"
  | .SubsurfaceScattering => "SubsurfaceScattering"

/-- The bitwise or of the texture-presence flags of a set `T` of property
names, the set given by its membership test. -/
def textureFlags (T : TextureKind → Bool) : Nat :=
  (if T .Albedo then MaterialType.Albedo_Texture else 0) |||
  (if T .Normal then MaterialType.Normal_Texture else 0) |||
  (if T .Roughness then MaterialType.Roughness_Texture else 0) |||
  (if T .Metallic then MaterialType.Metallic_Texture else 0)

/-- The surface area of the box with edge lengths `m_Max - m_Min`: two
faces for each pair of axes. -/
def AABB.surfaceArea {F : Type} [Add F] [Sub F] [Mul F] (b : AABB F) : F :=
  (b.m_Max.x - b.m_Min.x) * (b.m_Max.y - b.m_Min.y) +
  (b.m_Max.x - b.m_Min.x) * (b.m_Max.y - b.m_Min.y) +
  ((b.m_Max.x - b.m_Min.x) * (b.m_Max.z - b.m_Min.z) +
    (b.m_Max.x - b.m_Min.x) * (b.m_Max.z - b.m_Min.z)) +
  ((b.m_Max.y - b.m_Min.y) * (b.m_Max.z - b.m_Min.z) +
    (b.m_Max.y - b.m_Min.y) * (b.m_Max.z - b.m_Min.z))

/-- A call of one of the two mutating members of `PathSegment`. -/
inductive PathSegment.Call where
  | Reset
  | Terminate

/-- The segment after one call. -/
def PathSegment.call {F : Type} [Zero F] [One F] (p : PathSegment F) :
    PathSegment.Call → PathSegment F
  | .Reset => p.Reset
  | .Terminate => p.Terminate

/-- The segment after a finite sequence of calls, made in order. -/
def PathSegment.calls {F : Type} [Zero F] [One F] (p : PathSegment F) :
    List PathSegment.Call → PathSegment F
  | [] => p
  | c :: cs => PathSegment.calls (p.call c) cs

/-- The rational `q` is a binary32 value: rounding leaves it as it is. -/
def IsBinary32 (q : ℚ) : Prop := round32 q = IEEE.fin q

instance (q : ℚ) : Decidable (IsBinary32 q) :=
  inferInstanceAs (Decidable (round32 q = IEEE.fin q))

/-- No rounding error in the slab test of one axis with a non-zero
direction component `d`: the reciprocal `1 / d`, the two differences
`m - origin` and their two products with the reciprocal are binary32
values. -/
def ExactSlab (mn mx o d : ℚ) : Prop :=
  IsBinary32 (1 / d) ∧ IsBinary32 (mn - o) ∧ IsBinary32 (mx - o) ∧
    IsBinary32 ((mn - o) * (1 / d)) ∧ IsBinary32 ((mx - o) * (1 / d))

instance (mn mx o d : ℚ) : Decidable (ExactSlab mn mx o d) := by
  unfold ExactSlab
  infer_instance

/-- No rounding error in the slab test of one axis: the two differences
`m - origin` are binary32 values and, when the direction component `d` is
not zero, so are the reciprocal `1 / d` and the two products. -/
def ExactAxis (mn mx o d : ℚ) : Prop :=
  IsBinary32 (mn - o) ∧ IsBinary32 (mx - o) ∧
    (d ≠ 0 → IsBinary32 (1 / d) ∧ IsBinary32 ((mn - o) * (1 / d)) ∧
      IsBinary32 ((mx - o) * (1 / d)))

instance (mn mx o d : ℚ) : Decidable (ExactAxis mn mx o d) := by
  unfold ExactAxis
  infer_instance

/-- What `inv_dir = 1.f / direction` gives in binary32 for one component:
the rounded reciprocal of a non-zero component, and `+inf` or `-inf` (by the
sign of the zero) for a zero component. -/
def IsRecip32 (d : ℚ) (i : F32) : Prop :=
  (d ≠ 0 ∧ i = 1 / F32.ofRat d) ∨ (d = 0 ∧ (i = ⟨IEEE.pinf⟩ ∨ i = ⟨IEEE.ninf⟩))

/-- The binary32 value of the literal `0.001f`, `0x1.0624dep-10`. -/
def literal_0_001f : ℚ := 8589935 / 8589934592

/-- No rounding error in one component of `SpawnRay(o, d)` followed by
`operator*(t)`: the offset `d * 0.001f`, the origin `o + d * 0.001f`, the
product `t * d` and the sum of the last two are binary32 values. -/
def ExactSpawn (o d t : ℚ) : Prop :=
  IsBinary32 (d * literal_0_001f) ∧ IsBinary32 (o + d * literal_0_001f) ∧
    IsBinary32 (t * d) ∧ IsBinary32 (o + d * literal_0_001f + t * d)

instance (o d t : ℚ) : Decidable (ExactSpawn o d t) := by
  unfold ExactSpawn
  infer_instance

namespace F32

/-- The binary32 sum `a + b` is the exact sum: no rounding error. -/
def ExactAdd (a b : F32) : Prop := (a + b).val = a.val + b.val

/-- The binary32 difference `a - b` is the exact difference. -/
def ExactSub (a b : F32) : Prop := (a - b).val = a.val - b.val

/-- The binary32 product `a * b` is the exact product. -/
def ExactMul (a b : F32) : Prop := (a * b).val = a.val * b.val

/-- The binary32 quotient `a / b` is the exact quotient. -/
def ExactDiv (a b : F32) : Prop := (a / b).val = a.val / b.val

/-- The binary32 square root of `a` is the exact square root: it is not
negative and its exact square is `a`. -/
def ExactSqrt (a : F32) : Prop :=
  (sqrt a).val * (sqrt a).val = a.val ∧ ¬ (sqrt a).val < IEEE.fin 0

instance (a b : F32) : Decidable (ExactAdd a b) :=
  inferInstanceAs (Decidable ((a + b).val = a.val + b.val))

instance (a b : F32) : Decidable (ExactSub a b) :=
  inferInstanceAs (Decidable ((a - b).val = a.val - b.val))

instance (a b : F32) : Decidable (ExactMul a b) :=
  inferInstanceAs (Decidable ((a * b).val = a.val * b.val))

instance (a b : F32) : Decidable (ExactDiv a b) :=
  inferInstanceAs (Decidable ((a / b).val = a.val / b.val))

instance (a : F32) : Decidable (ExactSqrt a) := by
  unfold ExactSqrt
  infer_instance

end F32

/-- No rounding error in the three subtractions of `a - b`. -/
def glm.vec3.ExactSub (a b : vec3 F32) : Prop :=
  F32.ExactSub a.x b.x ∧ F32.ExactSub a.y b.y ∧ F32.ExactSub a.z b.z

/-- No rounding error in `glm::dot(a, b)`: three products and two sums. -/
def glm.vec3.ExactDot (a b : vec3 F32) : Prop :=
  F32.ExactMul a.x b.x ∧ F32.ExactMul a.y b.y ∧ F32.ExactMul a.z b.z ∧
    F32.ExactAdd (a.x * b.x) (a.y * b.y) ∧ F32.ExactAdd (a.x * b.x + a.y * b.y) (a.z * b.z)

/-- No rounding error in `glm::cross(a, b)`: six products and three
differences. -/
def glm.vec3.ExactCross (a b : vec3 F32) : Prop :=
  (F32.ExactMul a.y b.z ∧ F32.ExactMul b.y a.z ∧ F32.ExactSub (a.y * b.z) (b.y * a.z)) ∧
  (F32.ExactMul a.z b.x ∧ F32.ExactMul b.z a.x ∧ F32.ExactSub (a.z * b.x) (b.z * a.x)) ∧
  (F32.ExactMul a.x b.y ∧ F32.ExactMul b.x a.y ∧ F32.ExactSub (a.x * b.y) (b.x * a.y))

/-- No rounding error in `glm::normalize(v)`: the dot product, its square
root, the reciprocal of the root and the three products with it. -/
def glm.vec3.ExactNormalize (v : vec3 F32) : Prop :=
  vec3.ExactDot v v ∧ F32.ExactSqrt (vec3.dot v v) ∧
    F32.ExactDiv 1 (F32.sqrt (vec3.dot v v)) ∧
    F32.ExactMul v.x (vec3.inversesqrt F32.sqrt (vec3.dot v v)) ∧
    F32.ExactMul v.y (vec3.inversesqrt F32.sqrt (vec3.dot v v)) ∧
    F32.ExactMul v.z (vec3.inversesqrt F32.sqrt (vec3.dot v v))

/-- No operation of `Camera::Recompute()` rounds: the difference
`ref - position`, the three normalisations and the two cross products. -/
def Camera.ExactRecompute (c : Camera F32) : Prop :=
  vec3.ExactSub c.ref c.position ∧
  vec3.ExactNormalize (vec3.sub c.ref c.position) ∧
  vec3.ExactCross (c.Recompute F32.sqrt).forward ⟨0, 1, 0⟩ ∧
  vec3.ExactNormalize (vec3.cross (c.Recompute F32.sqrt).forward ⟨0, 1, 0⟩) ∧
  vec3.ExactCross (c.Recompute F32.sqrt).right (c.Recompute F32.sqrt).forward ∧
  vec3.ExactNormalize
    (vec3.cross (c.Recompute F32.sqrt).right (c.Recompute F32.sqrt).forward)

instance (a b : vec3 F32) : Decidable (vec3.ExactSub a b) := by
  unfold vec3.ExactSub
  infer_instance

instance (a b : vec3 F32) : Decidable (vec3.ExactDot a b) := by
  unfold vec3.ExactDot
  infer_instance

instance (a b : vec3 F32) : Decidable (vec3.ExactCross a b) := by
  unfold vec3.ExactCross
  infer_instance

instance (v : vec3 F32) : Decidable (vec3.ExactNormalize v) := by
  unfold vec3.ExactNormalize
  infer_instance

instance (c : Camera F32) : Decidable (Camera.ExactRecompute c) := by
  unfold Camera.ExactRecompute
  infer_instance

/-- The IEEE value with its finite value carried over by `f`. -/
def IEEE.map {K L : Type} (f : K → L) : IEEE K → IEEE L
  | .fin a => .fin (f a)
  | .pinf => .pinf
  | .ninf => .ninf
  | .nan => .nan

/-- The extent of the box along axis `i` (0, 1, 2 for x, y, z): `m_Max`
minus `m_Min` on that axis. -/
def AABB.extent {F : Type} [Sub F] (b : AABB F) (i : Int) : F :=
  if i = 0 then b.m_Max.x - b.m_Min.x
  else if i = 1 then b.m_Max.y - b.m_Min.y
  else b.m_Max.z - b.m_Min.z

/-! ## Theorems -/

section order

variable {F : Type} [LinearOrder F]

theorem glm.min_eq (x y : F) : glm.min x y = Min.min x y := by
  unfold glm.min
  rcases lt_or_le y x with h | h
  · rw [if_pos h, min_eq_right h.le]
  · rw [if_neg (not_lt.mpr h), min_eq_left h]

theorem glm.max_eq (x y : F) : glm.max x y = Max.max x y := by
  unfold glm.max
  rcases lt_or_le x y with h | h
  · rw [if_pos h, max_eq_right h.le]
  · rw [if_neg (not_lt.mpr h), max_eq_left h]

end order

section slab

variable {F : Type} [LinearOrderedField F]

/-- One slab: for a non-zero direction component the parameters that put
the point between the two planes are those between the entry and the exit
parameter. -/
theorem slab_axis_iff (mn mx o d s : F) (hd : d ≠ 0) (hbox : mn ≤ mx) :
    (mn ≤ o + s * d ∧ o + s * d ≤ mx) ↔
      (Min.min ((mn - o) * (1 / d)) ((mx - o) * (1 / d)) ≤ s ∧
        s ≤ Max.max ((mn - o) * (1 / d)) ((mx - o) * (1 / d))) := by
  have hsub : mn - o ≤ mx - o := by linarith
  rcases lt_or_gt_of_ne hd with hneg | hpos
  · have hle : (mx - o) * (1 / d) ≤ (mn - o) * (1 / d) :=
      mul_le_mul_of_nonpos_right hsub (by simpa using hneg.le)
    rw [min_eq_right hle, max_eq_left hle, mul_one_div, mul_one_div,
      div_le_iff_of_neg hneg, le_div_iff_of_neg hneg]
    constructor
    · rintro ⟨h1, h2⟩
      exact ⟨by linarith, by linarith⟩
    · rintro ⟨h1, h2⟩
      exact ⟨by linarith, by linarith⟩
  · have hle : (mn - o) * (1 / d) ≤ (mx - o) * (1 / d) :=
      mul_le_mul_of_nonneg_right hsub (by simpa using hpos.le)
    rw [min_eq_left hle, max_eq_right hle, mul_one_div, mul_one_div,
      div_le_iff₀ hpos, le_div_iff₀ hpos]
    constructor
    · rintro ⟨h1, h2⟩
      exact ⟨by linarith, by linarith⟩
    · rintro ⟨h1, h2⟩
      exact ⟨by linarith, by linarith⟩

theorem three_intervals_entry (l1 h1 l2 h2 l3 h3 : F)
    (h : Max.max (Max.max l1 l2) l3 ≤ Min.min (Min.min h1 h2) h3) :
    (l1 ≤ Max.max (Max.max l1 l2) l3 ∧ Max.max (Max.max l1 l2) l3 ≤ h1) ∧
    (l2 ≤ Max.max (Max.max l1 l2) l3 ∧ Max.max (Max.max l1 l2) l3 ≤ h2) ∧
    (l3 ≤ Max.max (Max.max l1 l2) l3 ∧ Max.max (Max.max l1 l2) l3 ≤ h3) := by
  have u1 : Max.max (Max.max l1 l2) l3 ≤ h1 :=
    h.trans ((min_le_left _ _).trans (min_le_left _ _))
  have u2 : Max.max (Max.max l1 l2) l3 ≤ h2 :=
    h.trans ((min_le_left _ _).trans (min_le_right _ _))
  have u3 : Max.max (Max.max l1 l2) l3 ≤ h3 := h.trans (min_le_right _ _)
  exact ⟨⟨(le_max_left _ _).trans (le_max_left _ _), u1⟩,
    ⟨(le_max_right _ _).trans (le_max_left _ _), u2⟩, ⟨le_max_right _ _, u3⟩⟩

/-- Three closed intervals have a common point exactly
when the largest lower end is at most the smallest upper end; the largest
lower end is then the least common point. -/
theorem three_intervals (l1 h1 l2 h2 l3 h3 : F) :
    (Max.max (Max.max l1 l2) l3 ≤ Min.min (Min.min h1 h2) h3) ↔
      ∃ s, (l1 ≤ s ∧ s ≤ h1) ∧ (l2 ≤ s ∧ s ≤ h2) ∧ (l3 ≤ s ∧ s ≤ h3) := by
  constructor
  · intro h
    exact ⟨Max.max (Max.max l1 l2) l3, three_intervals_entry _ _ _ _ _ _ h⟩
  · rintro ⟨s, ⟨a1, b1⟩, ⟨a2, b2⟩, a3, b3⟩
    exact le_trans (max_le (max_le a1 a2) a3) (le_min (le_min b1 b2) b3)

end slab

section intersection

variable {F : Type} [LinearOrderedField F]

theorem AABB.Intersection_fst_iff (b : AABB F) (ray : Ray F) (inv_dir : vec3 F) :
    (b.Intersection ray inv_dir).1 = true ↔
      Max.max (Max.max
          (Min.min ((b.m_Min.x - ray.origin.x) * inv_dir.x)
            ((b.m_Max.x - ray.origin.x) * inv_dir.x))
          (Min.min ((b.m_Min.y - ray.origin.y) * inv_dir.y)
            ((b.m_Max.y - ray.origin.y) * inv_dir.y)))
          (Min.min ((b.m_Min.z - ray.origin.z) * inv_dir.z)
            ((b.m_Max.z - ray.origin.z) * inv_dir.z)) ≤
        Min.min (Min.min
          (Max.max ((b.m_Min.x - ray.origin.x) * inv_dir.x)
            ((b.m_Max.x - ray.origin.x) * inv_dir.x))
          (Max.max ((b.m_Min.y - ray.origin.y) * inv_dir.y)
            ((b.m_Max.y - ray.origin.y) * inv_dir.y)))
          (Max.max ((b.m_Min.z - ray.origin.z) * inv_dir.z)
            ((b.m_Max.z - ray.origin.z) * inv_dir.z)) := by
  simp only [AABB.Intersection, vec3.min, vec3.max, vec3.mul, vec3.sub, glm.min_eq,
    glm.max_eq, gt_iff_lt]
  split_ifs with h
  · simp only [Bool.false_eq_true, false_iff, not_le]
    exact h
  · simp only [true_iff]
    exact not_lt.mp h

theorem AABB.Intersection_snd (b : AABB F) (ray : Ray F) (inv_dir : vec3 F) :
    (b.Intersection ray inv_dir).2 =
      Max.max (Max.max
          (Min.min ((b.m_Min.x - ray.origin.x) * inv_dir.x)
            ((b.m_Max.x - ray.origin.x) * inv_dir.x))
          (Min.min ((b.m_Min.y - ray.origin.y) * inv_dir.y)
            ((b.m_Max.y - ray.origin.y) * inv_dir.y)))
          (Min.min ((b.m_Min.z - ray.origin.z) * inv_dir.z)
            ((b.m_Max.z - ray.origin.z) * inv_dir.z)) := by
  simp only [AABB.Intersection, vec3.min, vec3.max, vec3.mul, vec3.sub, glm.min_eq,
    glm.max_eq, gt_iff_lt]
  split_ifs <;> rfl

theorem AABB.Contains_mul_iff (b : AABB F) (ray : Ray F) (s : F) :
    b.Contains (ray.mul s) ↔
      (b.m_Min.x ≤ ray.origin.x + s * ray.direction.x ∧
        ray.origin.x + s * ray.direction.x ≤ b.m_Max.x) ∧
      (b.m_Min.y ≤ ray.origin.y + s * ray.direction.y ∧
        ray.origin.y + s * ray.direction.y ≤ b.m_Max.y) ∧
      (b.m_Min.z ≤ ray.origin.z + s * ray.direction.z ∧
        ray.origin.z + s * ray.direction.z ≤ b.m_Max.z) := Iff.rfl

/-- The slab test in exact arithmetic: for a box with `m_Min <= m_Max`
componentwise and a ray whose direction has no zero component, called with
`inv_dir = 1 / direction`, the result is true exactly when some parameter `s`
puts `origin + s * direction` in the closed box; and then the output `t` is
the least such parameter and equals the maximum over the three axes of the
per-axis entry parameter. -/
theorem AABB.Intersection_iff_line_meets_box (b : AABB F) (ray : Ray F)
    (inv_dir : vec3 F)
    (hbox : b.m_Min.x ≤ b.m_Max.x ∧ b.m_Min.y ≤ b.m_Max.y ∧ b.m_Min.z ≤ b.m_Max.z)
    (hdir : ray.direction.x ≠ 0 ∧ ray.direction.y ≠ 0 ∧ ray.direction.z ≠ 0)
    (hinv : inv_dir = vec3.sdiv 1 ray.direction) :
    ((b.Intersection ray inv_dir).1 = true ↔ ∃ s, b.Contains (ray.mul s)) ∧
    ((b.Intersection ray inv_dir).1 = true →
      b.Contains (ray.mul (b.Intersection ray inv_dir).2) ∧
      (∀ s, b.Contains (ray.mul s) → (b.Intersection ray inv_dir).2 ≤ s) ∧
      (b.Intersection ray inv_dir).2 =
        Max.max (Max.max
          (slabEntry b.m_Min.x b.m_Max.x ray.origin.x ray.direction.x)
          (slabEntry b.m_Min.y b.m_Max.y ray.origin.y ray.direction.y))
          (slabEntry b.m_Min.z b.m_Max.z ray.origin.z ray.direction.z)) := by
  obtain ⟨hx, hy, hz⟩ := hbox
  obtain ⟨dx, dy, dz⟩ := hdir
  subst hinv
  have key : ∀ s, b.Contains (ray.mul s) ↔ _ := fun s =>
    (b.Contains_mul_iff ray s).trans
      (and_congr (slab_axis_iff _ _ _ _ s dx hx)
        (and_congr (slab_axis_iff _ _ _ _ s dy hy) (slab_axis_iff _ _ _ _ s dz hz)))
  have hfst := b.Intersection_fst_iff ray (vec3.sdiv 1 ray.direction)
  have hsnd := b.Intersection_snd ray (vec3.sdiv 1 ray.direction)
  have ex : (vec3.sdiv 1 ray.direction).x = 1 / ray.direction.x := rfl
  have ey : (vec3.sdiv 1 ray.direction).y = 1 / ray.direction.y := rfl
  have ez : (vec3.sdiv 1 ray.direction).z = 1 / ray.direction.z := rfl
  rw [ex, ey, ez] at hfst hsnd
  refine ⟨?_, ?_⟩
  · rw [hfst, three_intervals]
    exact exists_congr fun s => (key s).symm
  · intro hit
    have hle := hfst.mp hit
    refine ⟨?_, ?_, ?_⟩
    · rw [key, hsnd]
      exact three_intervals_entry _ _ _ _ _ _ hle
    · intro s hs
      rw [hsnd]
      obtain ⟨⟨a1, _⟩, ⟨a2, _⟩, a3, _⟩ := (key s).mp hs
      exact max_le (max_le a1 a2) a3
    · rw [hsnd]
      simp only [slabEntry, mul_one_div]

end intersection

section merge

variable {F : Type} [LinearOrder F]

/-- C2: after `a.Merge(b)` the box contains the old `a` and `b`, and every
box that contains both contains the merged box. -/
theorem AABB.Merge_contains_and_tight (a b : AABB F) :
    (a.Merge b).ContainsBox a ∧ (a.Merge b).ContainsBox b ∧
      ∀ c : AABB F, c.ContainsBox a ∧ c.ContainsBox b → c.ContainsBox (a.Merge b) := by
  simp only [AABB.ContainsBox, AABB.Merge, vec3.min, vec3.max, glm.min_eq, glm.max_eq,
    min_le_left, min_le_right, le_max_left, le_max_right, and_self, true_and]
  rintro c ⟨⟨⟨a1, a2, a3⟩, a4, a5, a6⟩, ⟨b1, b2, b3⟩, b4, b5, b6⟩
  exact ⟨⟨le_min a1 b1, le_min a2 b2, le_min a3 b3⟩,
    max_le a4 b4, max_le a5 b5, max_le a6 b6⟩

end merge

section empty_box

variable {F : Type} [LinearOrderedField F]

/-- C3: with the empty box `[+MAX, -MAX]`, and a box `b` whose coordinates
lie in `[-MAX, +MAX]`, merging `b` into the empty box gives the corners of
`b`, and merging the empty box into `b` leaves the corners of `b`. -/
theorem AABB.empty_Merge_identity (Float_MAX Float_MIN : F) (d : ivec3) (b : AABB F)
    (hmin : Float_MIN = -Float_MAX)
    (hlo : InRange Float_MAX b.m_Min) (hhi : InRange Float_MAX b.m_Max) :
    (((AABB.empty Float_MAX Float_MIN d).Merge b).m_Min = b.m_Min ∧
      ((AABB.empty Float_MAX Float_MIN d).Merge b).m_Max = b.m_Max) ∧
    ((b.Merge (AABB.empty Float_MAX Float_MIN d)).m_Min = b.m_Min ∧
      (b.Merge (AABB.empty Float_MAX Float_MIN d)).m_Max = b.m_Max) := by
  subst hmin
  obtain ⟨⟨-, l1⟩, ⟨-, l2⟩, -, l3⟩ := hlo
  obtain ⟨⟨u1, -⟩, ⟨u2, -⟩, u3, -⟩ := hhi
  refine ⟨⟨?_, ?_⟩, ?_, ?_⟩ <;>
    · ext <;>
        simp [AABB.Merge, AABB.empty, vec3.min, vec3.max, vec3.splat,
          glm.min_eq, glm.max_eq, *]

/-- Witness for C3: `MAX = 100` and the box from `(-100, 0, 1)` to
`(-100, 2, 100)`, which touches both ends of the range. -/
theorem AABB.empty_Merge_identity_witness :
    (((AABB.empty (100 : ℚ) (-100) ⟨0, 0, 0⟩).Merge ⟨⟨-100, 0, 1⟩, ⟨-100, 2, 100⟩, ⟨7, 8, 9⟩⟩).m_Min
        = ⟨-100, 0, 1⟩ ∧
      ((AABB.empty (100 : ℚ) (-100) ⟨0, 0, 0⟩).Merge ⟨⟨-100, 0, 1⟩, ⟨-100, 2, 100⟩, ⟨7, 8, 9⟩⟩).m_Max
        = ⟨-100, 2, 100⟩) ∧
    ((AABB.Merge ⟨⟨-100, 0, 1⟩, ⟨-100, 2, 100⟩, ⟨7, 8, 9⟩⟩
        (AABB.empty (100 : ℚ) (-100) ⟨0, 0, 0⟩)).m_Min = ⟨-100, 0, 1⟩ ∧
      (AABB.Merge ⟨⟨-100, 0, 1⟩, ⟨-100, 2, 100⟩, ⟨7, 8, 9⟩⟩
        (AABB.empty (100 : ℚ) (-100) ⟨0, 0, 0⟩)).m_Max = ⟨-100, 2, 100⟩) :=
  AABB.empty_Merge_identity (100 : ℚ) (-100) ⟨0, 0, 0⟩
    ⟨⟨-100, 0, 1⟩, ⟨-100, 2, 100⟩, ⟨7, 8, 9⟩⟩ rfl
    (by norm_num [InRange]) (by norm_num [InRange])

end empty_box

section max_axis

variable {F : Type} [LinearOrder F] [Sub F]

/-- The maximal-extent property of `GetMaxAxis` over any linearly ordered
scalars: `GetMaxAxis` returns 0, 1 or 2, and the extent `m_Max - m_Min` of
the box along the returned axis is at least its extent along each of the
three axes, ties included.  The subtraction is whatever subtraction the
scalars have, a rounded one included: the extents compared are the ones the
code computes. -/
theorem AABB.GetMaxAxis_maximal (b : AABB F) :
    (b.GetMaxAxis = 0 ∨ b.GetMaxAxis = 1 ∨ b.GetMaxAxis = 2) ∧
    b.m_Max.x - b.m_Min.x ≤ b.extent b.GetMaxAxis ∧
    b.m_Max.y - b.m_Min.y ≤ b.extent b.GetMaxAxis ∧
    b.m_Max.z - b.m_Min.z ≤ b.extent b.GetMaxAxis := by
  unfold AABB.GetMaxAxis
  simp only [AABB.GetDiagnol, vec3.sub, gt_iff_lt]
  split_ifs with h1 h2
  · simp only [AABB.extent, if_true, true_or, true_and, le_refl]
    exact ⟨h1.1.le, h1.2.le⟩
  · have hx : b.m_Max.x - b.m_Min.x ≤ b.m_Max.y - b.m_Min.y := by
      by_contra hc
      exact h1 ⟨not_le.mp hc, lt_trans h2 (not_le.mp hc)⟩
    simp [AABB.extent, hx, h2.le]
  · have hyz : b.m_Max.y - b.m_Min.y ≤ b.m_Max.z - b.m_Min.z := not_lt.mp h2
    have hx : b.m_Max.x - b.m_Min.x ≤ b.m_Max.z - b.m_Min.z := by
      by_contra hc
      exact h1 ⟨lt_of_le_of_lt hyz (not_le.mp hc), not_le.mp hc⟩
    simp [AABB.extent, hx, hyz]

end max_axis

/-! ### IEEE special values -/

namespace IEEE

variable {K : Type} [LinearOrderedField K]

@[simp] theorem fin_sub_fin (a b : K) : (fin a - fin b : IEEE K) = fin (a - b) := rfl

@[simp] theorem fin_mul_fin (a b : K) : (fin a * fin b : IEEE K) = fin (a * b) := rfl

@[simp] theorem fin_mul_pinf (a : K) : (fin a * pinf : IEEE K) = mulPinf a := rfl

@[simp] theorem fin_mul_ninf (a : K) : (fin a * ninf : IEEE K) = mulNinf a := rfl

theorem mulPinf_pos {a : K} (h : 0 < a) : mulPinf a = pinf := by
  simp [mulPinf, h]

theorem mulPinf_neg {a : K} (h : a < 0) : mulPinf a = ninf := by
  simp [mulPinf, h, not_lt.mpr h.le]

@[simp] theorem mulPinf_zero : mulPinf (0 : K) = nan := by
  simp [mulPinf]

theorem mulNinf_pos {a : K} (h : 0 < a) : mulNinf a = ninf := by
  simp [mulNinf, h]

theorem mulNinf_neg {a : K} (h : a < 0) : mulNinf a = pinf := by
  simp [mulNinf, h, not_lt.mpr h.le]

@[simp] theorem mulNinf_zero : mulNinf (0 : K) = nan := by
  simp [mulNinf]

@[simp] theorem fin_lt_fin (a b : K) : (fin a < fin b) ↔ a < b := by
  show decide (a < b) = true ↔ a < b
  simp

@[simp] theorem fin_lt_pinf (a : K) : fin a < (pinf : IEEE K) := by
  show blt (fin a) pinf = true
  rfl

@[simp] theorem ninf_lt_fin (a : K) : (ninf : IEEE K) < fin a := by
  show blt ninf (fin a) = true
  rfl

@[simp] theorem ninf_lt_pinf : (ninf : IEEE K) < pinf := by
  show blt ninf pinf = true
  rfl

@[simp] theorem not_lt_nan (a : IEEE K) : ¬ a < nan := by
  show ¬ blt a nan = true
  cases a <;> simp [blt]

@[simp] theorem not_nan_lt (a : IEEE K) : ¬ nan < a := by
  show ¬ blt nan a = true
  cases a <;> simp [blt]

@[simp] theorem not_pinf_lt (a : IEEE K) : ¬ pinf < a := by
  show ¬ blt pinf a = true
  cases a <;> simp [blt]

@[simp] theorem not_lt_ninf (a : IEEE K) : ¬ a < ninf := by
  show ¬ blt a ninf = true
  cases a <;> simp [blt]

end IEEE

/-- The failing input of C5: the unit box and the ray from `(1, 1/2, -1)`
with direction `(0, 0, 1)`, whose `inv_dir` is `(+inf, +inf, 1)`.  The ray
runs along the face `x = 1` and crosses the box for `t` in `[1, 2]`, yet
`AABB::Intersection` returns false: on the x axis `t_far = 0 * inf` is NaN,
both `glm::min` and `glm::max` then return `t_near = -inf`, and the exit
parameter `-inf` lies below the entry parameter `1`. -/
theorem AABB.Intersection_max_face_tangent_miss :
    (AABB.Intersection
      (⟨⟨.fin 0, .fin 0, .fin 0⟩, ⟨.fin 1, .fin 1, .fin 1⟩, ⟨0, 0, 0⟩⟩ : AABB (IEEE ℚ))
      ⟨⟨.fin 1, .fin (1 / 2), .fin (-1)⟩, ⟨.fin 0, .fin 0, .fin 1⟩⟩
      ⟨.pinf, .pinf, .fin 1⟩) = (false, .fin 1) := by
  norm_num [AABB.Intersection, vec3.sub, vec3.mul, vec3.min, vec3.max, glm.min, glm.max,
    IEEE.mulPinf]

/-- The same ray moved to the opposite face `x = 0` is reported as a hit. -/
theorem AABB.Intersection_min_face_tangent_hit :
    (AABB.Intersection
      (⟨⟨.fin 0, .fin 0, .fin 0⟩, ⟨.fin 1, .fin 1, .fin 1⟩, ⟨0, 0, 0⟩⟩ : AABB (IEEE ℚ))
      ⟨⟨.fin 0, .fin (1 / 2), .fin (-1)⟩, ⟨.fin 0, .fin 0, .fin 1⟩⟩
      ⟨.pinf, .pinf, .fin 1⟩).1 = true := by
  norm_num [AABB.Intersection, vec3.sub, vec3.mul, vec3.min, vec3.max, glm.min, glm.max,
    IEEE.mulPinf]

section ieee_slab

variable {K : Type} [LinearOrderedField K]

theorem glm.max_ne_nan {a b : IEEE K} (ha : a ≠ IEEE.nan) (hb : b ≠ IEEE.nan) :
    glm.max a b ≠ IEEE.nan := by
  unfold glm.max
  split_ifs <;> assumption

theorem glm.min_ne_nan {a b : IEEE K} (ha : a ≠ IEEE.nan) (hb : b ≠ IEEE.nan) :
    glm.min a b ≠ IEEE.nan := by
  unfold glm.min
  split_ifs <;> assumption

theorem glm.not_lt_max {a b : IEEE K} (ha : a ≠ IEEE.nan) (hb : b ≠ IEEE.nan) (s : K) :
    ¬ IEEE.fin s < glm.max a b ↔ (¬ IEEE.fin s < a ∧ ¬ IEEE.fin s < b) := by
  unfold glm.max
  cases a <;> cases b <;> simp at ha hb ⊢
  rename_i x y
  split_ifs with h
  · simp only [IEEE.fin_lt_fin, not_lt]
    exact ⟨fun hy => ⟨h.le.trans hy, hy⟩, fun hh => hh.2⟩
  · simp only [IEEE.fin_lt_fin, not_lt]
    exact ⟨fun hx => ⟨hx, (not_lt.mp h).trans hx⟩, fun hh => hh.1⟩

theorem glm.not_min_lt {a b : IEEE K} (ha : a ≠ IEEE.nan) (hb : b ≠ IEEE.nan) (s : K) :
    ¬ glm.min a b < IEEE.fin s ↔ (¬ a < IEEE.fin s ∧ ¬ b < IEEE.fin s) := by
  unfold glm.min
  cases a <;> cases b <;> simp at ha hb ⊢
  rename_i x y
  split_ifs with h
  · simp only [IEEE.fin_lt_fin, not_lt]
    exact ⟨fun hy => ⟨hy.trans h.le, hy⟩, fun hh => hh.2⟩
  · simp only [IEEE.fin_lt_fin, not_lt]
    exact ⟨fun hx => ⟨hx, hx.trans (not_lt.mp h)⟩, fun hh => hh.1⟩

theorem glm.max_ne_ninf {a b : IEEE K} (ha : a ≠ IEEE.nan) (hb : b ≠ IEEE.nan)
    (h : a ≠ IEEE.ninf ∨ b ≠ IEEE.ninf) : glm.max a b ≠ IEEE.ninf := by
  unfold glm.max
  cases a <;> cases b <;> simp at ha hb h ⊢
  split_ifs <;> simp

theorem glm.min_ne_pinf {a b : IEEE K} (ha : a ≠ IEEE.nan) (hb : b ≠ IEEE.nan)
    (h : a ≠ IEEE.pinf ∨ b ≠ IEEE.pinf) : glm.min a b ≠ IEEE.pinf := by
  unfold glm.min
  cases a <;> cases b <;> simp at ha hb h ⊢
  split_ifs <;> simp

/-- Two slabs intersect to the slab of the `glm::max` of the lower ends
and the `glm::min` of the upper ends. -/
theorem Slab.inter {P Q : K → Prop} {lo hi lo2 hi2 : IEEE K}
    (h1 : Slab P lo hi) (h2 : Slab Q lo2 hi2) :
    Slab (fun s => P s ∧ Q s) (glm.max lo lo2) (glm.min hi hi2) := by
  obtain ⟨a1, b1, c1⟩ := h1
  obtain ⟨a2, b2, c2⟩ := h2
  refine ⟨glm.max_ne_nan a1 a2, glm.min_ne_nan b1 b2, fun s => ?_⟩
  rw [glm.not_lt_max a1 a2, glm.not_min_lt b1 b2]
  show P s ∧ Q s ↔ _
  rw [c1, c2]
  tauto

/-- A slab whose lower end is not `-inf` and whose upper end is not `+inf`
holds some parameter exactly when the upper end is not below the lower. -/
theorem Slab.nonempty_iff {P : K → Prop} {lo hi : IEEE K} (h : Slab P lo hi)
    (hlo : lo ≠ IEEE.ninf) (hhi : hi ≠ IEEE.pinf) : ¬ hi < lo ↔ ∃ s, P s := by
  obtain ⟨a, b, c⟩ := h
  simp only [c]
  cases lo <;> cases hi <;> simp at a b hlo hhi ⊢
  rename_i l u
  exact ⟨fun hlu => ⟨l, le_refl l, hlu⟩, fun ⟨s, h1, h2⟩ => h1.trans h2⟩

theorem glm.min_fin (a b : K) :
    glm.min (IEEE.fin a) (IEEE.fin b) = IEEE.fin (Min.min a b) := by
  rw [← glm.min_eq]
  unfold glm.min
  simp only [IEEE.fin_lt_fin]
  split_ifs <;> rfl

theorem glm.max_fin (a b : K) :
    glm.max (IEEE.fin a) (IEEE.fin b) = IEEE.fin (Max.max a b) := by
  rw [← glm.max_eq]
  unfold glm.max
  simp only [IEEE.fin_lt_fin]
  split_ifs <;> rfl

/-- One axis of the slab test under IEEE arithmetic: when the origin is on
neither plane of an axis whose direction component is zero, the per-axis
`t_min`, `t_max` are not NaN and bound exactly the parameters that put the
point between the two planes; they are finite when the component is not
zero. -/
theorem Slab.of_axis (mn mx o d : K) (inv : IEEE K) (hbox : mn < mx)
    (hinv : IsRecip d inv) (hface : d = 0 → o ≠ mn ∧ o ≠ mx) :
    Slab (fun s => mn ≤ o + s * d ∧ o + s * d ≤ mx)
        (glm.min ((IEEE.fin mn - IEEE.fin o) * inv) ((IEEE.fin mx - IEEE.fin o) * inv))
        (glm.max ((IEEE.fin mn - IEEE.fin o) * inv) ((IEEE.fin mx - IEEE.fin o) * inv)) ∧
      (d ≠ 0 →
        glm.min ((IEEE.fin mn - IEEE.fin o) * inv) ((IEEE.fin mx - IEEE.fin o) * inv)
            ≠ IEEE.ninf ∧
        glm.max ((IEEE.fin mn - IEEE.fin o) * inv) ((IEEE.fin mx - IEEE.fin o) * inv)
            ≠ IEEE.pinf) := by
  rcases hinv with ⟨hd, rfl⟩ | ⟨hd, hi⟩
  · simp only [IEEE.fin_sub_fin, IEEE.fin_mul_fin, glm.min_fin, glm.max_fin]
    refine ⟨⟨by simp, by simp, fun s => ?_⟩, fun _ => ⟨by simp, by simp⟩⟩
    simp only [IEEE.fin_lt_fin, not_lt]
    exact slab_axis_iff mn mx o d s hd hbox.le
  · subst hd
    obtain ⟨h1, h2⟩ := hface rfl
    refine ⟨?_, fun h => absurd rfl h⟩
    simp only [IEEE.fin_sub_fin, mul_zero, add_zero]
    rcases lt_or_gt_of_ne h1 with hlt | hgt
    · have p1 : 0 < mn - o := sub_pos.mpr hlt
      have p2 : 0 < mx - o := sub_pos.mpr (hlt.trans hbox)
      rcases hi with rfl | rfl
      · simp [Slab, glm.min, glm.max, IEEE.mulPinf_pos p1, IEEE.mulPinf_pos p2, hlt]
      · simp [Slab, glm.min, glm.max, IEEE.mulNinf_pos p1, IEEE.mulNinf_pos p2, hlt]
    · have p1 : mn - o < 0 := sub_neg.mpr hgt
      rcases lt_or_gt_of_ne h2 with hlt2 | hgt2
      · have p2 : 0 < mx - o := sub_pos.mpr hlt2
        rcases hi with rfl | rfl
        · simp [Slab, glm.min, glm.max, IEEE.mulPinf_neg p1, IEEE.mulPinf_pos p2, hgt.le,
            hlt2.le]
        · simp [Slab, glm.min, glm.max, IEEE.mulNinf_neg p1, IEEE.mulNinf_pos p2, hgt.le,
            hlt2.le]
      · have p2 : mx - o < 0 := sub_neg.mpr hgt2
        rcases hi with rfl | rfl
        · simp [Slab, glm.min, glm.max, IEEE.mulPinf_neg p1, IEEE.mulPinf_neg p2, hgt2]
        · simp [Slab, glm.min, glm.max, IEEE.mulNinf_neg p1, IEEE.mulNinf_neg p2, hgt2]

theorem AABB.Intersection_fst_ieee (b : AABB (IEEE K)) (ray : Ray (IEEE K))
    (inv_dir : vec3 (IEEE K)) :
    (b.Intersection ray inv_dir).1 = true ↔
      ¬ glm.min (glm.min
          (glm.max ((b.m_Min.x - ray.origin.x) * inv_dir.x)
            ((b.m_Max.x - ray.origin.x) * inv_dir.x))
          (glm.max ((b.m_Min.y - ray.origin.y) * inv_dir.y)
            ((b.m_Max.y - ray.origin.y) * inv_dir.y)))
          (glm.max ((b.m_Min.z - ray.origin.z) * inv_dir.z)
            ((b.m_Max.z - ray.origin.z) * inv_dir.z)) <
        glm.max (glm.max
          (glm.min ((b.m_Min.x - ray.origin.x) * inv_dir.x)
            ((b.m_Max.x - ray.origin.x) * inv_dir.x))
          (glm.min ((b.m_Min.y - ray.origin.y) * inv_dir.y)
            ((b.m_Max.y - ray.origin.y) * inv_dir.y)))
          (glm.min ((b.m_Min.z - ray.origin.z) * inv_dir.z)
            ((b.m_Max.z - ray.origin.z) * inv_dir.z)) := by
  simp only [AABB.Intersection, vec3.min, vec3.max, vec3.mul, vec3.sub, gt_iff_lt]
  split_ifs with h
  · simp only [Bool.false_eq_true, false_iff, not_not]
    exact h
  · simp only [true_iff]
    exact h

/-- The slab test on IEEE values whose finite operations are exact: for a
box with `m_Min < m_Max` and a ray with at least one non-zero direction
component, whose origin lies on neither plane of any axis with a zero
direction component, with `inv_dir` holding `+inf` or `-inf` on the zero axes
and the reciprocal elsewhere, the result is true exactly when the line meets
the closed box. -/
theorem AABB.Intersection_ieee_iff_line_meets_box (mn mx o d : vec3 K) (data : ivec3)
    (inv_dir : vec3 (IEEE K))
    (hbox : mn.x < mx.x ∧ mn.y < mx.y ∧ mn.z < mx.z)
    (_hzero : d.x = 0 ∨ d.y = 0 ∨ d.z = 0)
    (hdir : d.x ≠ 0 ∨ d.y ≠ 0 ∨ d.z ≠ 0)
    (hinv : IsRecip d.x inv_dir.x ∧ IsRecip d.y inv_dir.y ∧ IsRecip d.z inv_dir.z)
    (hx : d.x = 0 → o.x ≠ mn.x ∧ o.x ≠ mx.x)
    (hy : d.y = 0 → o.y ≠ mn.y ∧ o.y ≠ mx.y)
    (hz : d.z = 0 → o.z ≠ mn.z ∧ o.z ≠ mx.z) :
    (AABB.Intersection ⟨mn.map IEEE.fin, mx.map IEEE.fin, data⟩
        ⟨o.map IEEE.fin, d.map IEEE.fin⟩ inv_dir).1 = true ↔
      ∃ s : K, AABB.Contains ⟨mn, mx, data⟩ (Ray.mul ⟨o, d⟩ s) := by
  obtain ⟨bx, by_, bz⟩ := hbox
  obtain ⟨ix, iy, iz⟩ := hinv
  obtain ⟨sx, fx⟩ := Slab.of_axis mn.x mx.x o.x d.x inv_dir.x bx ix hx
  obtain ⟨sy, fy⟩ := Slab.of_axis mn.y mx.y o.y d.y inv_dir.y by_ iy hy
  obtain ⟨sz, fz⟩ := Slab.of_axis mn.z mx.z o.z d.z inv_dir.z bz iz hz
  have hall := (sx.inter sy).inter sz
  rw [AABB.Intersection_fst_ieee]
  refine Iff.trans (hall.nonempty_iff ?_ ?_) (exists_congr fun s => ?_)
  · rcases hdir with h | h | h
    · exact glm.max_ne_ninf (glm.max_ne_nan sx.1 sy.1) sz.1
        (Or.inl (glm.max_ne_ninf sx.1 sy.1 (Or.inl (fx h).1)))
    · exact glm.max_ne_ninf (glm.max_ne_nan sx.1 sy.1) sz.1
        (Or.inl (glm.max_ne_ninf sx.1 sy.1 (Or.inr (fy h).1)))
    · exact glm.max_ne_ninf (glm.max_ne_nan sx.1 sy.1) sz.1 (Or.inr (fz h).1)
  · rcases hdir with h | h | h
    · exact glm.min_ne_pinf (glm.min_ne_nan sx.2.1 sy.2.1) sz.2.1
        (Or.inl (glm.min_ne_pinf sx.2.1 sy.2.1 (Or.inl (fx h).2)))
    · exact glm.min_ne_pinf (glm.min_ne_nan sx.2.1 sy.2.1) sz.2.1
        (Or.inl (glm.min_ne_pinf sx.2.1 sy.2.1 (Or.inr (fy h).2)))
    · exact glm.min_ne_pinf (glm.min_ne_nan sx.2.1 sy.2.1) sz.2.1 (Or.inr (fz h).2)
  · exact and_assoc

end ieee_slab

/-! ### Material -/

theorem HasTexture_iff_testBit (type : Nat) (k : TextureKind) :
    HasTexture type k =
      type.testBit (match k with
        | .Albedo => 27
        | .Normal => 28
        | .Roughness => 29
        | .Metallic => 30) := by
  have key : ∀ n : Nat, decide (BIT n &&& type > 0) = type.testBit n := by
    intro n
    rw [BIT, Nat.one_shiftLeft, Nat.and_comm, Nat.and_two_pow]
    cases h : type.testBit n <;> simp
  cases k <;> exact key _

section material

variable {F : Type}

/-- C7: `GetAlbedo`, `GetRoughness` and `GetMetallic` return the texture
sample at `uv` (its xyz, its x, its x) when the property's texture bit (bit 27
for albedo, 29 for roughness, 30 for metallic) is set in `type` and the
texture is `Valid()`, and the scalar of `data.values` otherwise; `GetNormal`
replaces the normal when bit 28 is set and the normal texture is valid, and
returns the normal it was given otherwise. -/
theorem Material.getters_texture_or_scalar (LocalToWorld : vec3 F → vec3 F → vec3 F)
    (normalize : vec3 F → vec3 F) (m : Material F) (uv : vec2 F) (normal : vec3 F) :
    (m.GetAlbedo uv =
      if m.type.testBit 27 = true ∧ m.data.textures.albedo_tex.Valid = true then
        ⟨(m.data.textures.albedo_tex.Get uv.x uv.y).x,
          (m.data.textures.albedo_tex.Get uv.x uv.y).y,
          (m.data.textures.albedo_tex.Get uv.x uv.y).z⟩
      else m.data.values.albedo) ∧
    (m.GetRoughness uv =
      if m.type.testBit 29 = true ∧ m.data.textures.roughness_tex.Valid = true then
        (m.data.textures.roughness_tex.Get uv.x uv.y).x
      else m.data.values.roughness) ∧
    (m.GetMetallic uv =
      if m.type.testBit 30 = true ∧ m.data.textures.metallic_tex.Valid = true then
        (m.data.textures.metallic_tex.Get uv.x uv.y).x
      else m.data.values.metallic) ∧
    (m.GetNormal LocalToWorld normalize uv normal =
      if m.type.testBit 28 = true ∧ m.data.textures.normal_tex.Valid = true then
        normalize (LocalToWorld normal
          ⟨(m.data.textures.normal_tex.Get uv.x uv.y).x,
            (m.data.textures.normal_tex.Get uv.x uv.y).y,
            (m.data.textures.normal_tex.Get uv.x uv.y).z⟩)
      else normal) := by
  refine ⟨?_, ?_, ?_, ?_⟩
  · simp only [Material.GetAlbedo, HasTexture_iff_testBit, Bool.and_eq_true]
  · simp only [Material.GetRoughness, HasTexture_iff_testBit, Bool.and_eq_true]
  · simp only [Material.GetMetallic, HasTexture_iff_testBit, Bool.and_eq_true]
  · simp only [Material.GetNormal, HasTexture_iff_testBit, Bool.and_eq_true]

end material

/-! ### PathSegment -/

section path

variable {F : Type}

/-- C9: `IsEnd()` is true exactly when `remainingBounces <= 0`;
`Terminate()` sets `remainingBounces` to 0 and keeps every other field, so
`IsEnd()` is true right after `Terminate()`. -/
theorem PathSegment.IsEnd_iff_and_Terminate (p : PathSegment F) :
    (p.IsEnd = true ↔ p.remainingBounces ≤ 0) ∧
    (p.Terminate.remainingBounces = 0 ∧ p.Terminate.ray = p.ray ∧
      p.Terminate.throughput = p.throughput ∧ p.Terminate.radiance = p.radiance ∧
      p.Terminate.pixelIndex = p.pixelIndex ∧ p.Terminate.mediaId = p.mediaId) ∧
    p.Terminate.IsEnd = true := by
  refine ⟨?_, ⟨rfl, rfl, rfl, rfl, rfl, rfl⟩, ?_⟩
  · simp [PathSegment.IsEnd]
  · simp [PathSegment.IsEnd, PathSegment.Terminate]

/-- C10 as stated fails: with `path_depth = 0` the segment is at its end
right after `Reset()` and `remainingBounces = path_depth`. -/
theorem PathSegment.Reset_start_IsEnd_of_zero_depth :
    (PathSegment.setRemainingBounces
      (PathSegment.Reset
        (⟨⟨⟨0, 0, 0⟩, ⟨0, 0, 1⟩⟩, ⟨1, 1, 1⟩, ⟨0, 0, 0⟩, 3, 5, -1⟩ : PathSegment ℚ))
      (Camera.path_depth
        (⟨⟨800, 600⟩, ⟨0, 0, 0⟩, ⟨0, 0, 1⟩, ⟨0, 0, 1⟩, ⟨0, 1, 0⟩, ⟨1, 0, 0⟩, 45, 0, 1, 0⟩ :
          Camera ℚ))).IsEnd = true := by
  decide

/-- C10, amended: after `Reset()` and `remainingBounces = path_depth`,
`IsEnd()` is false exactly when `path_depth > 0`. -/
theorem PathSegment.Reset_start_IsEnd_iff [Zero F] [One F] (p : PathSegment F)
    (c : Camera F) :
    (p.Reset.setRemainingBounces c.path_depth).IsEnd = false ↔ 0 < c.path_depth := by
  simp [PathSegment.IsEnd, PathSegment.setRemainingBounces]

end path

/-! ### Camera -/

section camera

variable {F : Type} [LinearOrderedField F]

theorem vec3.dot_muls_muls (a b : vec3 F) (k l : F) :
    vec3.dot (vec3.muls a k) (vec3.muls b l) = k * l * vec3.dot a b := by
  simp only [vec3.dot, vec3.muls]
  ring

theorem vec3.dot_cross_self_left (a b : vec3 F) : vec3.dot a (vec3.cross a b) = 0 := by
  simp only [vec3.dot, vec3.cross]
  ring

theorem vec3.dot_cross_self_right (a b : vec3 F) : vec3.dot b (vec3.cross a b) = 0 := by
  simp only [vec3.dot, vec3.cross]
  ring

theorem vec3.dot_cross_cross (a b : vec3 F) :
    vec3.dot (vec3.cross a b) (vec3.cross a b) =
      vec3.dot a a * vec3.dot b b - vec3.dot a b * vec3.dot a b := by
  simp only [vec3.dot, vec3.cross]
  ring

theorem vec3.dot_muls_right (a b : vec3 F) (l : F) :
    vec3.dot a (vec3.muls b l) = l * vec3.dot a b := by
  simp only [vec3.dot, vec3.muls]
  ring

theorem vec3.dot_comm (a b : vec3 F) : vec3.dot a b = vec3.dot b a := by
  simp only [vec3.dot]
  ring

theorem vec3.dot_cross_up (v : vec3 F) :
    vec3.dot (vec3.cross v ⟨0, 1, 0⟩) (vec3.cross v ⟨0, 1, 0⟩) = v.x * v.x + v.z * v.z := by
  simp only [vec3.dot, vec3.cross]
  ring

end camera

/-! ### MaterialType -/

theorem textureFlags_eq (T : TextureKind → Bool) :
    textureFlags T =
      (if T .Albedo then 2 ^ 27 else 0) ||| (if T .Normal then 2 ^ 28 else 0) |||
      (if T .Roughness then 2 ^ 29 else 0) ||| (if T .Metallic then 2 ^ 30 else 0) := rfl

/-- C11: for each lobe type `L` and each set `T` of texture-presence flags,
masking `L | T` with `Clear_Texture` gives `L` back, `HasTexture(L | T, X)`
holds exactly for the `X` in `T`, `IsSpecular(L | T)` holds exactly for the
two specular lobes, the `Microfacet` bit is set exactly for the two
microfacet lobes, and the six lobe values are pairwise distinct. -/
theorem MaterialType.lobe_or_texture_flags (L : Lobe) (T : TextureKind → Bool) :
    ((L.toType ||| textureFlags T) &&& MaterialType.Clear_Texture = L.toType) ∧
    (∀ X, HasTexture (L.toType ||| textureFlags T) X = T X) ∧
    (IsSpecular (L.toType ||| textureFlags T) = true ↔
      (L = .SpecularReflection ∨ L = .SpecularGlass)) ∧
    (MaterialType.Microfacet &&& (L.toType ||| textureFlags T) > 0 ↔
      (L = .MicrofacetReflection ∨ L = .MicrofacetMix)) ∧
    Function.Injective Lobe.toType := by
  refine ⟨?_, ?_, ?_, ?_, ?_⟩
  · rw [textureFlags_eq]
    cases L <;> cases T .Albedo <;> cases T .Normal <;> cases T .Roughness <;>
      cases T .Metallic <;> decide
  · intro X
    rw [textureFlags_eq]
    cases X <;> cases L <;> cases T .Albedo <;> cases T .Normal <;> cases T .Roughness <;>
      cases T .Metallic <;> decide
  · rw [textureFlags_eq]
    cases L <;> cases T .Albedo <;> cases T .Normal <;> cases T .Roughness <;>
      cases T .Metallic <;> decide
  · rw [textureFlags_eq]
    cases L <;> cases T .Albedo <;> cases T .Normal <;> cases T .Roughness <;>
      cases T .Metallic <;> decide
  · intro a b h
    cases a <;> cases b <;> first | rfl | exact absurd h (by decide)

/-! ### PathSegment, continued -/

section path_reset

variable {F : Type} [Zero F] [One F]

/-- C13: `Reset()` sets `throughput = (1,1,1)`, `radiance = (0,0,0)`,
`mediaId = -1` and `pixelIndex = 0`, keeps `ray` and `remainingBounces`, and
applying it twice is the same as applying it once. -/
theorem PathSegment.Reset_initial_state (p : PathSegment F) :
    (p.Reset.throughput = ⟨1, 1, 1⟩ ∧ p.Reset.radiance = ⟨0, 0, 0⟩ ∧
      p.Reset.mediaId = -1 ∧ p.Reset.pixelIndex = 0) ∧
    (p.Reset.ray = p.ray ∧ p.Reset.remainingBounces = p.remainingBounces) ∧
    p.Reset.Reset = p.Reset :=
  ⟨⟨rfl, rfl, rfl, rfl⟩, ⟨rfl, rfl⟩, rfl⟩

theorem PathSegment.call_IsEnd (p : PathSegment F) (c : PathSegment.Call)
    (h : p.IsEnd = true) : (p.call c).IsEnd = true := by
  cases c
  · exact h
  · simp [PathSegment.call, PathSegment.IsEnd, PathSegment.Terminate]

/-- C17: a segment whose `IsEnd()` is true still has `IsEnd()` true after
any finite sequence of `Reset()` and `Terminate()` calls, and `Reset()`
leaves the value of `IsEnd()` as it was. -/
theorem PathSegment.IsEnd_absorbing (p : PathSegment F) :
    (∀ cs : List PathSegment.Call, p.IsEnd = true → (p.calls cs).IsEnd = true) ∧
    p.Reset.IsEnd = p.IsEnd := by
  refine ⟨fun cs => ?_, rfl⟩
  induction cs generalizing p with
  | nil => exact fun h => h
  | cons c cs ih => exact fun h => ih (p.call c) (PathSegment.call_IsEnd p c h)

end path_reset

/-! ### AABB, continued -/

section merge_algebra

variable {F : Type} [LinearOrder F]

/-- C14: the corners after merging `b` then `c` into `a` are those after
merging `c` then `b`; merging `b.Merge(c)` into `a` gives the corners of
merging `b` and then `c`; merging a box into itself keeps its corners; and
neither overload of `Merge` changes `m_Data`. -/
theorem AABB.Merge_order_independent (a b c : AABB F) (p : vec3 F) :
    (((a.Merge b).Merge c).m_Min = ((a.Merge c).Merge b).m_Min ∧
      ((a.Merge b).Merge c).m_Max = ((a.Merge c).Merge b).m_Max) ∧
    ((a.Merge (b.Merge c)).m_Min = ((a.Merge b).Merge c).m_Min ∧
      (a.Merge (b.Merge c)).m_Max = ((a.Merge b).Merge c).m_Max) ∧
    ((a.Merge a).m_Min = a.m_Min ∧ (a.Merge a).m_Max = a.m_Max) ∧
    ((a.Merge b).m_Data = a.m_Data ∧ (a.MergePoint p).m_Data = a.m_Data) := by
  refine ⟨⟨?_, ?_⟩, ⟨?_, ?_⟩, ⟨?_, ?_⟩, rfl, rfl⟩
  · ext <;> simp only [AABB.Merge, vec3.min, glm.min_eq] <;> exact inf_right_comm _ _ _
  · ext <;> simp only [AABB.Merge, vec3.max, glm.max_eq] <;> exact sup_right_comm _ _ _
  · ext <;> simp only [AABB.Merge, vec3.min, glm.min_eq, min_assoc]
  · ext <;> simp only [AABB.Merge, vec3.max, glm.max_eq, max_assoc]
  · ext <;> simp only [AABB.Merge, vec3.min, glm.min_eq, min_self]
  · ext <;> simp only [AABB.Merge, vec3.max, glm.max_eq, max_self]

end merge_algebra

section cost

variable {F : Type} [LinearOrderedField F]

/-- C15 as stated fails: for the unit cube `GetCost()` is 6, the whole
surface area, while half the surface area is 3. -/
theorem AABB.GetCost_unit_cube_ne_half_area :
    AABB.GetCost (⟨⟨0, 0, 0⟩, ⟨1, 1, 1⟩, ⟨0, 0, 0⟩⟩ : AABB ℚ) = 6 ∧
    AABB.surfaceArea (⟨⟨0, 0, 0⟩, ⟨1, 1, 1⟩, ⟨0, 0, 0⟩⟩ : AABB ℚ) / 2 = 3 ∧
    AABB.GetCost (⟨⟨0, 0, 0⟩, ⟨1, 1, 1⟩, ⟨0, 0, 0⟩⟩ : AABB ℚ) ≠
      AABB.surfaceArea (⟨⟨0, 0, 0⟩, ⟨1, 1, 1⟩, ⟨0, 0, 0⟩⟩ : AABB ℚ) / 2 := by
  norm_num [AABB.GetCost, AABB.GetDiagnol, AABB.surfaceArea, vec3.sub]

/-- C15, amended: for a box with `m_Min <= m_Max` componentwise, `GetCost()`
equals the whole surface area of the box with edge lengths
`(dx, dy, dz) = m_Max - m_Min`, which is `2 * (dx*dy + dx*dz + dy*dz)`: twice
the half surface area. -/
theorem AABB.GetCost_eq_surfaceArea (b : AABB F)
    (_hbox : b.m_Min.x ≤ b.m_Max.x ∧ b.m_Min.y ≤ b.m_Max.y ∧ b.m_Min.z ≤ b.m_Max.z) :
    b.GetCost = b.surfaceArea ∧
    b.GetCost = 2 * (b.surfaceArea / 2) ∧
    b.GetCost =
      2 * ((b.m_Max.x - b.m_Min.x) * (b.m_Max.y - b.m_Min.y) +
        (b.m_Max.x - b.m_Min.x) * (b.m_Max.z - b.m_Min.z) +
        (b.m_Max.y - b.m_Min.y) * (b.m_Max.z - b.m_Min.z)) := by
  refine ⟨?_, ?_, rfl⟩
  · simp only [AABB.GetCost, AABB.GetDiagnol, AABB.surfaceArea, vec3.sub]
    ring
  · simp only [AABB.GetCost, AABB.GetDiagnol, AABB.surfaceArea, vec3.sub]
    ring

/-- Witness for the amended C15: the box from `(0, 0, 0)` to `(1, 2, 3)`. -/
theorem AABB.GetCost_eq_surfaceArea_witness :
    AABB.GetCost (⟨⟨0, 0, 0⟩, ⟨1, 2, 3⟩, ⟨0, 0, 0⟩⟩ : AABB ℚ) =
      AABB.surfaceArea (⟨⟨0, 0, 0⟩, ⟨1, 2, 3⟩, ⟨0, 0, 0⟩⟩ : AABB ℚ) :=
  (AABB.GetCost_eq_surfaceArea (⟨⟨0, 0, 0⟩, ⟨1, 2, 3⟩, ⟨0, 0, 0⟩⟩ : AABB ℚ)
    (by norm_num)).1

end cost

/-- C16: `AABB::Intersection` tests the whole line.  The unit box and the
ray from `(2, 2, 2)` with direction `(1, 1, 1)`: the line meets the box, only
at negative parameters, and the result is true with output `t < 0`. -/
theorem AABB.Intersection_behind_origin :
    ∃ (b : AABB ℚ) (ray : Ray ℚ),
      (ray.direction.x ≠ 0 ∧ ray.direction.y ≠ 0 ∧ ray.direction.z ≠ 0) ∧
      (∃ s, b.Contains (ray.mul s)) ∧
      (∀ s, b.Contains (ray.mul s) → s < 0) ∧
      (b.Intersection ray (vec3.sdiv 1 ray.direction)).1 = true ∧
      (b.Intersection ray (vec3.sdiv 1 ray.direction)).2 < 0 := by
  refine ⟨⟨⟨0, 0, 0⟩, ⟨1, 1, 1⟩, ⟨0, 0, 0⟩⟩, ⟨⟨2, 2, 2⟩, ⟨1, 1, 1⟩⟩, ?_, ⟨-1, ?_⟩, ?_, ?_, ?_⟩
  · norm_num
  · norm_num [AABB.Contains, Ray.mul, vec3.add, vec3.smul]
  · intro s hs
    have h := hs.1.2
    simp only [Ray.mul, vec3.add, vec3.smul] at h
    linarith
  · norm_num [AABB.Intersection, vec3.sdiv, vec3.sub, vec3.mul, vec3.min, vec3.max,
      glm.min, glm.max]
  · norm_num [AABB.Intersection, vec3.sdiv, vec3.sub, vec3.mul, vec3.min, vec3.max,
      glm.min, glm.max]

/-! ### Material, continued -/

section material_copy

variable {F : Type}

/-- What the two ways of copying a `Material` have in common: both take
`type`, `emittance`, `eta` and the member `data.values` from the source, and
copy-assignment takes `data.textures` as well. -/
theorem Material.copy_assign_common (raw self other : Material F) :
    ((Material.copy raw other).type = other.type ∧
      (Material.copy raw other).emittance = other.emittance ∧
      (Material.copy raw other).eta = other.eta ∧
      (Material.copy raw other).data.values = other.data.values) ∧
    ((Material.assign self other).type = other.type ∧
      (Material.assign self other).emittance = other.emittance ∧
      (Material.assign self other).eta = other.eta ∧
      (Material.assign self other).data = other.data) ∧
    (Material.copy raw other).data.textures = raw.data.textures :=
  ⟨⟨rfl, rfl, rfl, rfl⟩, ⟨rfl, rfl, rfl, rfl⟩, rfl⟩

/-- The failing input of C18: a material whose `Normal_Texture` bit is set
and whose normal texture is valid, copied into zeroed storage.  The copy
constructor initialises `data.values` only, so the copy has no valid normal
texture and `GetNormal` returns the normal it was given; copy-assignment
copies `data.textures` too and `GetNormal` samples the texture. -/
theorem Material.copy_drops_normal_texture :
    (Material.copy
        (⟨0, 0, 0, ⟨⟨0, 0, ⟨0, 0, 0⟩⟩,
          ⟨⟨false, fun _ _ => ⟨0, 0, 0, 0⟩⟩, ⟨false, fun _ _ => ⟨0, 0, 0, 0⟩⟩,
            ⟨false, fun _ _ => ⟨0, 0, 0, 0⟩⟩, ⟨false, fun _ _ => ⟨0, 0, 0, 0⟩⟩⟩⟩⟩ :
          Material ℚ)
        ⟨MaterialType.DiffuseReflection ||| MaterialType.Normal_Texture, 0, 1,
          ⟨⟨0, 0, ⟨1, 1, 1⟩⟩,
            ⟨⟨false, fun _ _ => ⟨0, 0, 0, 0⟩⟩, ⟨false, fun _ _ => ⟨0, 0, 0, 0⟩⟩,
              ⟨false, fun _ _ => ⟨0, 0, 0, 0⟩⟩,
              ⟨true, fun _ _ => ⟨0, 0, 1, 0⟩⟩⟩⟩⟩).data.textures.normal_tex.Valid = false ∧
    (Material.assign
        (⟨0, 0, 0, ⟨⟨0, 0, ⟨0, 0, 0⟩⟩,
          ⟨⟨false, fun _ _ => ⟨0, 0, 0, 0⟩⟩, ⟨false, fun _ _ => ⟨0, 0, 0, 0⟩⟩,
            ⟨false, fun _ _ => ⟨0, 0, 0, 0⟩⟩, ⟨false, fun _ _ => ⟨0, 0, 0, 0⟩⟩⟩⟩⟩ :
          Material ℚ)
        ⟨MaterialType.DiffuseReflection ||| MaterialType.Normal_Texture, 0, 1,
          ⟨⟨0, 0, ⟨1, 1, 1⟩⟩,
            ⟨⟨false, fun _ _ => ⟨0, 0, 0, 0⟩⟩, ⟨false, fun _ _ => ⟨0, 0, 0, 0⟩⟩,
              ⟨false, fun _ _ => ⟨0, 0, 0, 0⟩⟩,
              ⟨true, fun _ _ => ⟨0, 0, 1, 0⟩⟩⟩⟩⟩).data.textures.normal_tex.Valid = true ∧
    Material.GetNormal (fun _ v => v) (fun v => v)
      (Material.copy
        (⟨0, 0, 0, ⟨⟨0, 0, ⟨0, 0, 0⟩⟩,
          ⟨⟨false, fun _ _ => ⟨0, 0, 0, 0⟩⟩, ⟨false, fun _ _ => ⟨0, 0, 0, 0⟩⟩,
            ⟨false, fun _ _ => ⟨0, 0, 0, 0⟩⟩, ⟨false, fun _ _ => ⟨0, 0, 0, 0⟩⟩⟩⟩⟩ :
          Material ℚ)
        ⟨MaterialType.DiffuseReflection ||| MaterialType.Normal_Texture, 0, 1,
          ⟨⟨0, 0, ⟨1, 1, 1⟩⟩,
            ⟨⟨false, fun _ _ => ⟨0, 0, 0, 0⟩⟩, ⟨false, fun _ _ => ⟨0, 0, 0, 0⟩⟩,
              ⟨false, fun _ _ => ⟨0, 0, 0, 0⟩⟩,
              ⟨true, fun _ _ => ⟨0, 0, 1, 0⟩⟩⟩⟩⟩) ⟨0, 0⟩ ⟨0, 1, 0⟩ = ⟨0, 1, 0⟩ ∧
    Material.GetNormal (fun _ v => v) (fun v => v)
      (Material.assign
        (⟨0, 0, 0, ⟨⟨0, 0, ⟨0, 0, 0⟩⟩,
          ⟨⟨false, fun _ _ => ⟨0, 0, 0, 0⟩⟩, ⟨false, fun _ _ => ⟨0, 0, 0, 0⟩⟩,
            ⟨false, fun _ _ => ⟨0, 0, 0, 0⟩⟩, ⟨false, fun _ _ => ⟨0, 0, 0, 0⟩⟩⟩⟩⟩ :
          Material ℚ)
        ⟨MaterialType.DiffuseReflection ||| MaterialType.Normal_Texture, 0, 1,
          ⟨⟨0, 0, ⟨1, 1, 1⟩⟩,
            ⟨⟨false, fun _ _ => ⟨0, 0, 0, 0⟩⟩, ⟨false, fun _ _ => ⟨0, 0, 0, 0⟩⟩,
              ⟨false, fun _ _ => ⟨0, 0, 0, 0⟩⟩,
              ⟨true, fun _ _ => ⟨0, 0, 1, 0⟩⟩⟩⟩⟩) ⟨0, 0⟩ ⟨0, 1, 0⟩ = ⟨0, 0, 1⟩ := by
  refine ⟨rfl, rfl, ?_, ?_⟩
  · simp [Material.GetNormal, Material.copy, Material.MaterialUnionData.copy,
      CudaTexture2D.Valid]
  · have hbit : HasTexture (MaterialType.DiffuseReflection ||| MaterialType.Normal_Texture)
        .Normal = true := by decide
    simp [Material.GetNormal, Material.assign, Material.MaterialUnionData.assign,
      CudaTexture2D.Valid, CudaTexture2D.Get, hbit]

end material_copy

/-- C19: `StringToMaterialType` maps each of the six lobe identifiers to its
lobe type and every other string to `None` (a change of letter case is
another string); it is injective on the six identifiers; and no result has a
texture-presence bit. -/
theorem StringToMaterialType_spec :
    (∀ L : Lobe, StringToMaterialType L.ident = L.toType) ∧
    (∀ s : String, (∀ L : Lobe, s ≠ L.ident) → StringToMaterialType s = MaterialType.None) ∧
    StringToMaterialType "specularglass" = MaterialType.None ∧
    (∀ L1 L2 : Lobe, StringToMaterialType L1.ident = StringToMaterialType L2.ident →
      L1.ident = L2.ident) ∧
    (∀ (s : String) (X : TextureKind), HasTexture (StringToMaterialType s) X = false) := by
  have h1 : ∀ L : Lobe, StringToMaterialType L.ident = L.toType := by
    intro L
    cases L <;> decide
  refine ⟨h1, ?_, by decide, ?_, ?_⟩
  · intro s hs
    have a1 := hs .DiffuseReflection
    have a2 := hs .SpecularReflection
    have a3 := hs .SpecularGlass
    have a4 := hs .MicrofacetReflection
    have a5 := hs .MicrofacetMix
    have a6 := hs .SubsurfaceScattering
    simp only [Lobe.ident] at a1 a2 a3 a4 a5 a6
    simp only [StringToMaterialType, if_neg a1, if_neg a2, if_neg a3, if_neg a4, if_neg a5,
      if_neg a6]
  · intro L1 L2 h
    rw [h1, h1] at h
    cases L1 <;> cases L2 <;> first | rfl | exact absurd h (by decide)
  · intro s X
    unfold StringToMaterialType
    split_ifs <;> cases X <;> decide

/-! ### Camera, continued -/

/-- C20: the camera at the origin that looks at `(0, 2, 0)`, straight up,
has `ref != position` and a view direction parallel to `(0, 1, 0)`.  In
binary32, after `Recompute()` the cross product of `forward` with the up
axis is the zero vector, `right` is the normalisation of the zero vector,
which is `0 * (1 / 0) = NaN` in each component, and so is `up`; the length
of `right` is not one and `forward`, `right`, `up` are not an orthonormal
basis.  Every operation on this input is exact. -/
theorem Camera.Recompute_degenerate :
    ∃ c : Camera F32, c.ref ≠ c.position ∧
      Parallel (vec3.sub c.ref c.position) ⟨0, 1, 0⟩ ∧
      vec3.cross (c.Recompute F32.sqrt).forward ⟨0, 1, 0⟩ = ⟨0, 0, 0⟩ ∧
      (c.Recompute F32.sqrt).right = vec3.normalize F32.sqrt ⟨0, 0, 0⟩ ∧
      (c.Recompute F32.sqrt).right = ⟨⟨.nan⟩, ⟨.nan⟩, ⟨.nan⟩⟩ ∧
      (c.Recompute F32.sqrt).up = ⟨⟨.nan⟩, ⟨.nan⟩, ⟨.nan⟩⟩ ∧
      vec3.length F32.sqrt (c.Recompute F32.sqrt).right = ⟨.nan⟩ ∧
      ¬ ((vec3.length F32.sqrt (c.Recompute F32.sqrt).forward = 1 ∧
          vec3.length F32.sqrt (c.Recompute F32.sqrt).right = 1 ∧
          vec3.length F32.sqrt (c.Recompute F32.sqrt).up = 1) ∧
        (vec3.dot (c.Recompute F32.sqrt).forward (c.Recompute F32.sqrt).right = 0 ∧
          vec3.dot (c.Recompute F32.sqrt).forward (c.Recompute F32.sqrt).up = 0 ∧
          vec3.dot (c.Recompute F32.sqrt).right (c.Recompute F32.sqrt).up = 0)) := by
  refine ⟨⟨⟨800, 600⟩, ⟨0, 0, 0⟩, ⟨0, F32.ofRat 2, 0⟩, ⟨0, 0, 0⟩, ⟨0, 0, 0⟩, ⟨0, 0, 0⟩,
    F32.ofRat 45, 0, 1, 8⟩, by decide!, ⟨F32.ofRat 2, by decide!⟩, by decide!, by decide!,
    by decide!, by decide!, by decide!, by decide!⟩

/-! ### Binary32 arithmetic on exact operands -/

namespace F32

theorem ext_val {a b : F32} (h : a.val = b.val) : a = b := by
  cases a
  cases b
  simp only at h
  rw [h]

theorem ofRat_sub {a b : ℚ} (h : IsBinary32 (a - b)) : ofRat a - ofRat b = ofRat (a - b) := by
  apply ext_val
  show IEEE.rnd (IEEE.fin a - IEEE.fin b) = IEEE.fin (a - b)
  rw [IEEE.fin_sub_fin]
  exact h

theorem ofRat_mul {a b : ℚ} (h : IsBinary32 (a * b)) : ofRat a * ofRat b = ofRat (a * b) := by
  apply ext_val
  show IEEE.rnd (IEEE.fin a * IEEE.fin b) = IEEE.fin (a * b)
  rw [IEEE.fin_mul_fin]
  exact h

theorem ofRat_add {a b : ℚ} (h : IsBinary32 (a + b)) : ofRat a + ofRat b = ofRat (a + b) := by
  apply ext_val
  show IEEE.rnd (IEEE.fin a + IEEE.fin b) = IEEE.fin (a + b)
  exact h

theorem ofRat_div {a b : ℚ} (hb : b ≠ 0) (h : IsBinary32 (a / b)) :
    ofRat a / ofRat b = ofRat (a / b) := by
  apply ext_val
  show IEEE.rnd (IEEE.div (IEEE.fin a) (IEEE.fin b)) = IEEE.fin (a / b)
  have hb2 : 0 < b ∨ b < 0 := (lt_or_gt_of_ne hb).symm
  simp only [IEEE.div, if_pos hb2]
  exact h

theorem ofRat_lt {a b : ℚ} : ofRat a < ofRat b ↔ a < b :=
  IEEE.fin_lt_fin a b

theorem min_ofRat (a b : ℚ) : glm.min (ofRat a) (ofRat b) = ofRat (glm.min a b) := by
  unfold glm.min
  simp only [ofRat_lt]
  split_ifs <;> rfl

theorem max_ofRat (a b : ℚ) : glm.max (ofRat a) (ofRat b) = ofRat (glm.max a b) := by
  unfold glm.max
  simp only [ofRat_lt]
  split_ifs <;> rfl

theorem one_eq : (1 : F32) = ofRat 1 := rfl

theorem zero_eq : (0 : F32) = ofRat 0 := rfl

end F32

/-! ### The slab test in binary32 -/

/-- When no operation of the slab test rounds, the binary32 run of
`AABB::Intersection` gives the result and the output `t` of the run in exact
arithmetic. -/
theorem AABB.Intersection_f32_of_exact (mn mx o d : vec3 ℚ) (data : ivec3)
    (hdir : d.x ≠ 0 ∧ d.y ≠ 0 ∧ d.z ≠ 0)
    (hex : ExactSlab mn.x mx.x o.x d.x ∧ ExactSlab mn.y mx.y o.y d.y ∧
      ExactSlab mn.z mx.z o.z d.z) :
    AABB.Intersection (⟨mn.map F32.ofRat, mx.map F32.ofRat, data⟩ : AABB F32)
        ⟨o.map F32.ofRat, d.map F32.ofRat⟩ (vec3.sdiv 1 (d.map F32.ofRat)) =
      ((AABB.Intersection ⟨mn, mx, data⟩ ⟨o, d⟩ (vec3.sdiv 1 d)).1,
        F32.ofRat (AABB.Intersection ⟨mn, mx, data⟩ ⟨o, d⟩ (vec3.sdiv 1 d)).2) := by
  obtain ⟨dx, dy, dz⟩ := hdir
  obtain ⟨⟨x1, x2, x3, x4, x5⟩, ⟨y1, y2, y3, y4, y5⟩, z1, z2, z3, z4, z5⟩ := hex
  have ix : (1 : F32) / F32.ofRat d.x = F32.ofRat (1 / d.x) := F32.ofRat_div dx x1
  have iy : (1 : F32) / F32.ofRat d.y = F32.ofRat (1 / d.y) := F32.ofRat_div dy y1
  have iz : (1 : F32) / F32.ofRat d.z = F32.ofRat (1 / d.z) := F32.ofRat_div dz z1
  simp only [AABB.Intersection, vec3.map, vec3.sdiv, vec3.sub, vec3.mul, vec3.min, vec3.max,
    ix, iy, iz, F32.ofRat_sub x2, F32.ofRat_sub x3, F32.ofRat_sub y2, F32.ofRat_sub y3,
    F32.ofRat_sub z2, F32.ofRat_sub z3, F32.ofRat_mul x4, F32.ofRat_mul x5, F32.ofRat_mul y4,
    F32.ofRat_mul y5, F32.ofRat_mul z4, F32.ofRat_mul z5, F32.min_ofRat, F32.max_ofRat,
    gt_iff_lt, F32.ofRat_lt]
  split_ifs <;> rfl

theorem glm.min_cast (a b : ℚ) : glm.min (a : ℝ) (b : ℝ) = ((glm.min a b : ℚ) : ℝ) := by
  unfold glm.min
  simp only [Rat.cast_lt]
  split_ifs <;> rfl

theorem glm.max_cast (a b : ℚ) : glm.max (a : ℝ) (b : ℝ) = ((glm.max a b : ℚ) : ℝ) := by
  unfold glm.max
  simp only [Rat.cast_lt]
  split_ifs <;> rfl

/-- The slab test in exact arithmetic on rational values read as reals
gives the result and the output `t` of the test on the rationals. -/
theorem AABB.Intersection_cast (mn mx o d : vec3 ℚ) (data : ivec3) :
    AABB.Intersection
        (⟨mn.map (fun q : ℚ => (q : ℝ)), mx.map (fun q : ℚ => (q : ℝ)), data⟩ : AABB ℝ)
        ⟨o.map (fun q : ℚ => (q : ℝ)), d.map (fun q : ℚ => (q : ℝ))⟩
        (vec3.sdiv 1 (d.map (fun q : ℚ => (q : ℝ)))) =
      ((AABB.Intersection ⟨mn, mx, data⟩ ⟨o, d⟩ (vec3.sdiv 1 d)).1,
        (((AABB.Intersection ⟨mn, mx, data⟩ ⟨o, d⟩ (vec3.sdiv 1 d)).2 : ℚ) : ℝ)) := by
  have e : ∀ a b c : ℚ,
      ((a : ℝ) - (b : ℝ)) * (1 / (c : ℝ)) = (((a - b) * (1 / c) : ℚ) : ℝ) := by
    intro a b c
    push_cast
    rfl
  simp only [AABB.Intersection, vec3.map, vec3.sdiv, vec3.sub, vec3.mul, vec3.min, vec3.max, e,
    glm.min_cast, glm.max_cast, gt_iff_lt, Rat.cast_lt]
  split_ifs <;> rfl

theorem IEEE.rnd_mulPinf (a : ℚ) : IEEE.rnd (IEEE.mulPinf a) = IEEE.mulPinf a := by
  unfold IEEE.mulPinf
  split_ifs <;> rfl

theorem IEEE.rnd_mulNinf (a : ℚ) : IEEE.rnd (IEEE.mulNinf a) = IEEE.mulNinf a := by
  unfold IEEE.mulNinf
  split_ifs <;> rfl

theorem F32.mk_lt (a b : IEEE ℚ) : (⟨a⟩ : F32) < ⟨b⟩ ↔ a < b := Iff.rfl

theorem F32.min_mk (a b : IEEE ℚ) : glm.min (⟨a⟩ : F32) ⟨b⟩ = ⟨glm.min a b⟩ := by
  unfold glm.min
  show (if b < a then (⟨b⟩ : F32) else ⟨a⟩) = ⟨if b < a then b else a⟩
  split_ifs <;> rfl

theorem F32.max_mk (a b : IEEE ℚ) : glm.max (⟨a⟩ : F32) ⟨b⟩ = ⟨glm.max a b⟩ := by
  unfold glm.max
  show (if a < b then (⟨b⟩ : F32) else ⟨a⟩) = ⟨if a < b then b else a⟩
  split_ifs <;> rfl

/-- One axis of the binary32 slab test without rounding error: the two
slab parameters are those of the IEEE computation on exact values. -/
theorem F32.axis_of_exact (mn mx o d : ℚ) (inv : F32) (hinv : IsRecip32 d inv)
    (hex : ExactAxis mn mx o d) :
    IsRecip d inv.val ∧
    (F32.ofRat mn - F32.ofRat o) * inv = ⟨(IEEE.fin mn - IEEE.fin o) * inv.val⟩ ∧
    (F32.ofRat mx - F32.ofRat o) * inv = ⟨(IEEE.fin mx - IEEE.fin o) * inv.val⟩ := by
  obtain ⟨e1, e2, e3⟩ := hex
  rw [F32.ofRat_sub e1, F32.ofRat_sub e2]
  rcases hinv with ⟨hd, rfl⟩ | ⟨hd, rfl | rfl⟩
  · obtain ⟨e4, e5, e6⟩ := e3 hd
    have hi : (1 : F32) / F32.ofRat d = F32.ofRat (1 / d) := F32.ofRat_div hd e4
    rw [hi, F32.ofRat_mul e5, F32.ofRat_mul e6]
    exact ⟨Or.inl ⟨hd, rfl⟩, rfl, rfl⟩
  · refine ⟨Or.inr ⟨hd, Or.inl rfl⟩, ?_, ?_⟩
    · apply F32.ext_val
      show IEEE.rnd (IEEE.mulPinf (mn - o)) = (IEEE.fin mn - IEEE.fin o) * IEEE.pinf
      rw [IEEE.rnd_mulPinf, IEEE.fin_sub_fin, IEEE.fin_mul_pinf]
    · apply F32.ext_val
      show IEEE.rnd (IEEE.mulPinf (mx - o)) = (IEEE.fin mx - IEEE.fin o) * IEEE.pinf
      rw [IEEE.rnd_mulPinf, IEEE.fin_sub_fin, IEEE.fin_mul_pinf]
  · refine ⟨Or.inr ⟨hd, Or.inr rfl⟩, ?_, ?_⟩
    · apply F32.ext_val
      show IEEE.rnd (IEEE.mulNinf (mn - o)) = (IEEE.fin mn - IEEE.fin o) * IEEE.ninf
      rw [IEEE.rnd_mulNinf, IEEE.fin_sub_fin, IEEE.fin_mul_ninf]
    · apply F32.ext_val
      show IEEE.rnd (IEEE.mulNinf (mx - o)) = (IEEE.fin mx - IEEE.fin o) * IEEE.ninf
      rw [IEEE.rnd_mulNinf, IEEE.fin_sub_fin, IEEE.fin_mul_ninf]

/-- When no operation of the slab test rounds, the binary32 run of
`AABB::Intersection` gives the result of the IEEE run on exact values. -/
theorem AABB.Intersection_f32_eq_ieee (mn mx o d : vec3 ℚ) (data : ivec3)
    (inv_dir : vec3 F32)
    (hinv : IsRecip32 d.x inv_dir.x ∧ IsRecip32 d.y inv_dir.y ∧ IsRecip32 d.z inv_dir.z)
    (hex : ExactAxis mn.x mx.x o.x d.x ∧ ExactAxis mn.y mx.y o.y d.y ∧
      ExactAxis mn.z mx.z o.z d.z) :
    (IsRecip d.x inv_dir.x.val ∧ IsRecip d.y inv_dir.y.val ∧ IsRecip d.z inv_dir.z.val) ∧
    (AABB.Intersection (⟨mn.map F32.ofRat, mx.map F32.ofRat, data⟩ : AABB F32)
        ⟨o.map F32.ofRat, d.map F32.ofRat⟩ inv_dir).1 =
      (AABB.Intersection (⟨mn.map IEEE.fin, mx.map IEEE.fin, data⟩ : AABB (IEEE ℚ))
        ⟨o.map IEEE.fin, d.map IEEE.fin⟩ (inv_dir.map F32.val)).1 := by
  obtain ⟨rx, nx, fx⟩ := F32.axis_of_exact mn.x mx.x o.x d.x inv_dir.x hinv.1 hex.1
  obtain ⟨ry, ny, fy⟩ := F32.axis_of_exact mn.y mx.y o.y d.y inv_dir.y hinv.2.1 hex.2.1
  obtain ⟨rz, nz, fz⟩ := F32.axis_of_exact mn.z mx.z o.z d.z inv_dir.z hinv.2.2 hex.2.2
  refine ⟨⟨rx, ry, rz⟩, ?_⟩
  simp only [AABB.Intersection, vec3.map, vec3.sub, vec3.mul, vec3.min, vec3.max, nx, fx, ny,
    fy, nz, fz, F32.min_mk, F32.max_mk, gt_iff_lt]
  simp only [F32.mk_lt]
  split_ifs <;> rfl

section ieee_cast

variable {L : Type} [LinearOrderedField L]

theorem IEEE.map_cast_sub (a b : IEEE ℚ) :
    IEEE.map (fun q : ℚ => (q : L)) (a - b) =
      IEEE.map (fun q : ℚ => (q : L)) a - IEEE.map (fun q : ℚ => (q : L)) b := by
  cases a <;> cases b <;> first | rfl | exact congrArg IEEE.fin (Rat.cast_sub _ _)

theorem IEEE.map_cast_mulPinf (a : ℚ) :
    IEEE.map (fun q : ℚ => (q : L)) (IEEE.mulPinf a) = IEEE.mulPinf (a : L) := by
  unfold IEEE.mulPinf
  simp only [Rat.cast_pos, Rat.cast_lt_zero]
  split_ifs <;> rfl

theorem IEEE.map_cast_mulNinf (a : ℚ) :
    IEEE.map (fun q : ℚ => (q : L)) (IEEE.mulNinf a) = IEEE.mulNinf (a : L) := by
  unfold IEEE.mulNinf
  simp only [Rat.cast_pos, Rat.cast_lt_zero]
  split_ifs <;> rfl

theorem IEEE.map_cast_mul (a b : IEEE ℚ) :
    IEEE.map (fun q : ℚ => (q : L)) (a * b) =
      IEEE.map (fun q : ℚ => (q : L)) a * IEEE.map (fun q : ℚ => (q : L)) b := by
  cases a <;> cases b <;>
    first
    | rfl
    | exact congrArg IEEE.fin (Rat.cast_mul _ _)
    | exact IEEE.map_cast_mulPinf _
    | exact IEEE.map_cast_mulNinf _

theorem IEEE.map_cast_lt (a b : IEEE ℚ) :
    IEEE.map (fun q : ℚ => (q : L)) a < IEEE.map (fun q : ℚ => (q : L)) b ↔ a < b := by
  cases a <;> cases b <;> first | exact Iff.rfl | simp [IEEE.map]

theorem IEEE.min_map_cast (a b : IEEE ℚ) :
    glm.min (IEEE.map (fun q : ℚ => (q : L)) a) (IEEE.map (fun q : ℚ => (q : L)) b) =
      IEEE.map (fun q : ℚ => (q : L)) (glm.min a b) := by
  unfold glm.min
  simp only [IEEE.map_cast_lt]
  split_ifs <;> rfl

theorem IEEE.max_map_cast (a b : IEEE ℚ) :
    glm.max (IEEE.map (fun q : ℚ => (q : L)) a) (IEEE.map (fun q : ℚ => (q : L)) b) =
      IEEE.map (fun q : ℚ => (q : L)) (glm.max a b) := by
  unfold glm.max
  simp only [IEEE.map_cast_lt]
  split_ifs <;> rfl

theorem IsRecip.cast {d : ℚ} {i : IEEE ℚ} (h : IsRecip d i) :
    IsRecip (d : L) (IEEE.map (fun q : ℚ => (q : L)) i) := by
  rcases h with ⟨hd, rfl⟩ | ⟨hd, rfl | rfl⟩
  · refine Or.inl ⟨by exact_mod_cast hd, ?_⟩
    show IEEE.fin (((1 / d : ℚ)) : L) = IEEE.fin (1 / (d : L))
    push_cast
    rfl
  · exact Or.inr ⟨by exact_mod_cast hd, Or.inl rfl⟩
  · exact Or.inr ⟨by exact_mod_cast hd, Or.inr rfl⟩

end ieee_cast

/-- The IEEE slab test on rational values gives the same result when the
values are read in another ordered field `L`. -/
theorem AABB.Intersection_ieee_cast (L : Type) [LinearOrderedField L] (mn mx o d : vec3 ℚ)
    (data : ivec3) (inv_dir : vec3 (IEEE ℚ)) :
    (AABB.Intersection
        (⟨(mn.map (fun q : ℚ => (q : L))).map IEEE.fin,
          (mx.map (fun q : ℚ => (q : L))).map IEEE.fin, data⟩ : AABB (IEEE L))
        ⟨(o.map (fun q : ℚ => (q : L))).map IEEE.fin,
          (d.map (fun q : ℚ => (q : L))).map IEEE.fin⟩
        (inv_dir.map (IEEE.map (fun q : ℚ => (q : L))))).1 =
      (AABB.Intersection (⟨mn.map IEEE.fin, mx.map IEEE.fin, data⟩ : AABB (IEEE ℚ))
        ⟨o.map IEEE.fin, d.map IEEE.fin⟩ inv_dir).1 := by
  have e : ∀ a b : ℚ, ∀ i : IEEE ℚ,
      (IEEE.fin (a : L) - IEEE.fin (b : L)) * IEEE.map (fun q : ℚ => (q : L)) i =
        IEEE.map (fun q : ℚ => (q : L)) ((IEEE.fin a - IEEE.fin b) * i) := by
    intro a b i
    rw [IEEE.map_cast_mul, IEEE.map_cast_sub]
    rfl
  simp only [AABB.Intersection, vec3.map, vec3.sub, vec3.mul, vec3.min, vec3.max, e,
    IEEE.min_map_cast, IEEE.max_map_cast, gt_iff_lt, IEEE.map_cast_lt]
  split_ifs <;> rfl

theorem F32.literal_0_001f_eq : (0.001 : F32) = F32.ofRat literal_0_001f := by decide!

/-- C12 as stated fails in binary32: for `o = (32768, 0, 0)` and
`d = (1, 0, 0)` the offset `0.001f` is less than half the spacing of binary32
values at `32768` and is absorbed: the origin of the spawned ray is `o`
itself, not `o + 0.001 * d`, and the ray at `t = 0` is `o`. -/
theorem Ray.SpawnRay_offset_absorbed :
    (Ray.SpawnRay (vec3.map F32.ofRat ⟨32768, 0, 0⟩) (vec3.map F32.ofRat ⟨1, 0, 0⟩)).origin =
      vec3.map F32.ofRat ⟨32768, 0, 0⟩ ∧
    (Ray.SpawnRay (vec3.map F32.ofRat ⟨32768, 0, 0⟩) (vec3.map F32.ofRat ⟨1, 0, 0⟩)).mul
      (F32.ofRat 0) = vec3.map F32.ofRat ⟨32768, 0, 0⟩ ∧
    (⟨32768, 0, 0⟩ : vec3 ℚ) ≠ vec3.add ⟨32768, 0, 0⟩ (vec3.smul 0.001 ⟨1, 0, 0⟩) ∧
    (⟨32768, 0, 0⟩ : vec3 ℚ) ≠ vec3.add ⟨32768, 0, 0⟩ (vec3.smul (0 + 0.001) ⟨1, 0, 0⟩) := by
  refine ⟨by decide!, by decide!, ?_, ?_⟩
  · intro h
    have hx := congrArg vec3.x h
    norm_num [vec3.add, vec3.smul] at hx
  · intro h
    have hx := congrArg vec3.x h
    norm_num [vec3.add, vec3.smul] at hx

/-- C12, amended: `SpawnRay(o, d)` returns a ray whose direction is exactly
`d`; the constant is `c = 0.001f = 0x1.0624dep-10`, the binary32 value
nearest to `0.001`; and when no operation rounds, the origin is `o + c * d`
and the spawned ray at parameter `t` is the point `o + (t + c) * d`. -/
theorem Ray.SpawnRay_offset_of_exact (o d : vec3 ℚ) (t : ℚ)
    (hex : ExactSpawn o.x d.x t ∧ ExactSpawn o.y d.y t ∧ ExactSpawn o.z d.z t) :
    (∀ p v : vec3 F32, (Ray.SpawnRay p v).direction = v) ∧
    (0.001 : F32) = F32.ofRat literal_0_001f ∧
    (Ray.SpawnRay (o.map F32.ofRat) (d.map F32.ofRat)).origin =
      vec3.map F32.ofRat (vec3.add o (vec3.smul literal_0_001f d)) ∧
    (Ray.SpawnRay (o.map F32.ofRat) (d.map F32.ofRat)).mul (F32.ofRat t) =
      vec3.map F32.ofRat (vec3.add o (vec3.smul (t + literal_0_001f) d)) := by
  obtain ⟨⟨x1, x2, x3, x4⟩, ⟨y1, y2, y3, y4⟩, z1, z2, z3, z4⟩ := hex
  refine ⟨fun _ _ => rfl, F32.literal_0_001f_eq, ?_, ?_⟩
  · simp only [Ray.SpawnRay, vec3.add, vec3.muls, vec3.smul, vec3.map, F32.literal_0_001f_eq,
      F32.ofRat_mul x1, F32.ofRat_mul y1, F32.ofRat_mul z1, F32.ofRat_add x2, F32.ofRat_add y2,
      F32.ofRat_add z2, mul_comm literal_0_001f]
  · simp only [Ray.SpawnRay, Ray.mul, vec3.add, vec3.muls, vec3.smul, vec3.map,
      F32.literal_0_001f_eq, F32.ofRat_mul x1, F32.ofRat_mul y1, F32.ofRat_mul z1,
      F32.ofRat_add x2, F32.ofRat_add y2, F32.ofRat_add z2, F32.ofRat_mul x3, F32.ofRat_mul y3,
      F32.ofRat_mul z3, F32.ofRat_add x4, F32.ofRat_add y4, F32.ofRat_add z4]
    congr 2 <;> ring

/-- Witness for the amended C12: `o = (0, 0, 0)`, `d = (1, 2, 0)` and
`t = 0.001f`. -/
theorem Ray.SpawnRay_offset_of_exact_witness :
    (Ray.SpawnRay (vec3.map F32.ofRat ⟨0, 0, 0⟩) (vec3.map F32.ofRat ⟨1, 2, 0⟩)).mul
        (F32.ofRat literal_0_001f) =
      vec3.map F32.ofRat
        (vec3.add ⟨0, 0, 0⟩ (vec3.smul (literal_0_001f + literal_0_001f) ⟨1, 2, 0⟩)) :=
  (Ray.SpawnRay_offset_of_exact ⟨0, 0, 0⟩ ⟨1, 2, 0⟩ literal_0_001f (by decide!)).2.2.2

/-! ### Recompute in binary32 -/

namespace F32

theorem sub_of_exact {a b : F32} {x y : ℚ} (ha : a = ofRat x) (hb : b = ofRat y)
    (h : ExactSub a b) : a - b = ofRat (x - y) := by
  subst ha hb
  exact ext_val h

theorem add_of_exact {a b : F32} {x y : ℚ} (ha : a = ofRat x) (hb : b = ofRat y)
    (h : ExactAdd a b) : a + b = ofRat (x + y) := by
  subst ha hb
  exact ext_val h

theorem mul_of_exact {a b : F32} {x y : ℚ} (ha : a = ofRat x) (hb : b = ofRat y)
    (h : ExactMul a b) : a * b = ofRat (x * y) := by
  subst ha hb
  exact ext_val h

theorem div_of_exact {a b : F32} {x y : ℚ} (ha : a = ofRat x) (hb : b = ofRat y)
    (hy : y ≠ 0) (h : ExactDiv a b) : a / b = ofRat (x / y) := by
  subst ha hb
  apply ext_val
  rw [h]
  show IEEE.div (IEEE.fin x) (IEEE.fin y) = IEEE.fin (x / y)
  have hy2 : 0 < y ∨ y < 0 := (lt_or_gt_of_ne hy).symm
  simp only [IEEE.div, if_pos hy2]

theorem sqrt_of_exact {a : F32} {x : ℚ} (ha : a = ofRat x) (h : ExactSqrt a) :
    ∃ s : ℚ, sqrt a = ofRat s ∧ 0 ≤ s ∧ s * s = x := by
  subst ha
  obtain ⟨h1, h2⟩ := h
  generalize sqrt (ofRat x) = r at h1 h2
  obtain ⟨v⟩ := r
  cases v with
  | fin s =>
    refine ⟨s, rfl, ?_, ?_⟩
    · exact not_lt.mp (fun hlt => h2 ((IEEE.fin_lt_fin s 0).mpr hlt))
    · have h3 : IEEE.fin (s * s) = IEEE.fin x := h1
      exact IEEE.fin.inj h3
  | pinf => exact absurd h1 (by intro h; cases h)
  | ninf => exact absurd h1 (by intro h; cases h)
  | nan => exact absurd h1 (by intro h; cases h)

end F32

section exact_vectors

theorem vec3.sub_map_of_exact {a b : vec3 F32} {x y : vec3 ℚ} (ha : a = x.map F32.ofRat)
    (hb : b = y.map F32.ofRat) (h : vec3.ExactSub a b) :
    vec3.sub a b = (vec3.sub x y).map F32.ofRat := by
  subst ha hb
  obtain ⟨h1, h2, h3⟩ := h
  simp only [vec3.sub, vec3.map] at *
  rw [F32.sub_of_exact rfl rfl h1, F32.sub_of_exact rfl rfl h2, F32.sub_of_exact rfl rfl h3]

theorem vec3.dot_map_of_exact {a b : vec3 F32} {x y : vec3 ℚ} (ha : a = x.map F32.ofRat)
    (hb : b = y.map F32.ofRat) (h : vec3.ExactDot a b) :
    vec3.dot a b = F32.ofRat (vec3.dot x y) := by
  subst ha hb
  obtain ⟨h1, h2, h3, h4, h5⟩ := h
  simp only [vec3.dot, vec3.map] at *
  have m1 := F32.mul_of_exact rfl rfl h1
  have m2 := F32.mul_of_exact rfl rfl h2
  have m3 := F32.mul_of_exact rfl rfl h3
  have a1 := F32.add_of_exact m1 m2 h4
  have a2 := F32.add_of_exact a1 m3 h5
  exact a2

theorem vec3.cross_map_of_exact {a b : vec3 F32} {x y : vec3 ℚ} (ha : a = x.map F32.ofRat)
    (hb : b = y.map F32.ofRat) (h : vec3.ExactCross a b) :
    vec3.cross a b = (vec3.cross x y).map F32.ofRat := by
  subst ha hb
  obtain ⟨⟨p1, p2, p3⟩, ⟨q1, q2, q3⟩, r1, r2, r3⟩ := h
  simp only [vec3.cross, vec3.map] at *
  rw [F32.sub_of_exact (F32.mul_of_exact rfl rfl p1) (F32.mul_of_exact rfl rfl p2) p3,
    F32.sub_of_exact (F32.mul_of_exact rfl rfl q1) (F32.mul_of_exact rfl rfl q2) q3,
    F32.sub_of_exact (F32.mul_of_exact rfl rfl r1) (F32.mul_of_exact rfl rfl r2) r3]

theorem vec3.normalize_map_of_exact {v : vec3 F32} {x : vec3 ℚ} (hv : v = x.map F32.ofRat)
    (hpos : 0 < vec3.dot x x) (h : vec3.ExactNormalize v) :
    ∃ s : ℚ, 0 < s ∧ s * s = vec3.dot x x ∧
      vec3.normalize F32.sqrt v = (vec3.muls x (1 / s)).map F32.ofRat := by
  obtain ⟨h1, h2, h3, h4, h5, h6⟩ := h
  have hd := vec3.dot_map_of_exact hv hv h1
  obtain ⟨s, hs, hs0, hss⟩ := F32.sqrt_of_exact hd h2
  have hspos : 0 < s := by
    rcases hs0.lt_or_eq with h | h
    · exact h
    · rw [← h, mul_zero] at hss
      exact absurd hss.symm hpos.ne'
  have hk : vec3.inversesqrt F32.sqrt (vec3.dot v v) = F32.ofRat (1 / s) :=
    F32.div_of_exact rfl hs hspos.ne' h3
  refine ⟨s, hspos, hss, ?_⟩
  subst hv
  simp only [vec3.normalize, vec3.muls, vec3.map] at *
  rw [F32.mul_of_exact rfl hk h4, F32.mul_of_exact rfl hk h5, F32.mul_of_exact rfl hk h6]

end exact_vectors

section scaled_basis

variable {F : Type} [LinearOrderedField F]

/-- Dividing a vector by a positive number whose square is its squared
length gives a vector of squared length one. -/
theorem vec3.dot_muls_inv_self (v : vec3 F) (s : F) (hs : 0 < s)
    (hss : s * s = vec3.dot v v) :
    vec3.dot (vec3.muls v (1 / s)) (vec3.muls v (1 / s)) = 1 := by
  rw [vec3.dot_muls_muls, ← hss]
  field_simp

/-- The cross product of two orthogonal unit vectors has squared length
one. -/
theorem vec3.dot_cross_of_orthonormal (r f : vec3 F) (hrr : vec3.dot r r = 1)
    (hff : vec3.dot f f = 1) (hfr : vec3.dot f r = 0) :
    vec3.dot (vec3.cross r f) (vec3.cross r f) = 1 := by
  rw [vec3.dot_cross_cross, hrr, hff, vec3.dot_comm r f, hfr]
  ring

/-- The three steps of `Recompute` in exact arithmetic on a direction `d`,
each normalisation dividing by a positive number whose square is the squared
length: the results are unit vectors, pairwise orthogonal, the third equals
the cross product it normalises, and the first is a positive multiple of
`d`. -/
theorem basis_of_scaled (d : vec3 F) (s0 s1 s2 : F) (f r u : vec3 F)
    (h0 : 0 < s0 ∧ s0 * s0 = vec3.dot d d) (hf : f = vec3.muls d (1 / s0))
    (h1 : 0 < s1 ∧ s1 * s1 = vec3.dot (vec3.cross f ⟨0, 1, 0⟩) (vec3.cross f ⟨0, 1, 0⟩))
    (hr : r = vec3.muls (vec3.cross f ⟨0, 1, 0⟩) (1 / s1))
    (h2 : 0 < s2 ∧ s2 * s2 = vec3.dot (vec3.cross r f) (vec3.cross r f))
    (hu : u = vec3.muls (vec3.cross r f) (1 / s2)) :
    (vec3.dot f f = 1 ∧ vec3.dot r r = 1 ∧ vec3.dot u u = 1) ∧
    (vec3.dot f r = 0 ∧ vec3.dot f u = 0 ∧ vec3.dot r u = 0) ∧
    (∃ k, 0 < k ∧ f = vec3.smul k d) ∧ u = vec3.cross r f := by
  have hff : vec3.dot f f = 1 := by
    rw [hf]
    exact vec3.dot_muls_inv_self d s0 h0.1 h0.2
  have hfd : f = vec3.smul (1 / s0) d := by
    rw [hf]
    ext <;> simp [vec3.muls, vec3.smul, mul_comm]
  have hrr : vec3.dot r r = 1 := by
    rw [hr]
    exact vec3.dot_muls_inv_self _ s1 h1.1 h1.2
  have hfr : vec3.dot f r = 0 := by
    rw [hr, vec3.dot_muls_right, vec3.dot_cross_self_left, mul_zero]
  have hc2 := vec3.dot_cross_of_orthonormal r f hrr hff hfr
  have hs2 : s2 = 1 := by
    have h3 : (s2 - 1) * (s2 + 1) = 0 := by
      have := h2.2
      rw [hc2] at this
      linear_combination this
    rcases mul_eq_zero.mp h3 with h | h
    · linarith
    · linarith [h2.1]
  have hu2 : u = vec3.cross r f := by
    rw [hu, hs2]
    ext <;> simp [vec3.muls]
  refine ⟨⟨hff, hrr, ?_⟩, ⟨hfr, ?_, ?_⟩, ⟨_, one_div_pos.mpr h0.1, hfd⟩, hu2⟩
  · rw [hu2, hc2]
  · rw [hu2, vec3.dot_cross_self_right]
  · rw [hu2, vec3.dot_cross_self_left]

end scaled_basis

section ieee_order

variable {K : Type} [LinearOrderedField K]

theorem IEEE.not_lt_of_lt {a b : IEEE K} (h : a < b) : ¬ b < a := by
  cases a <;> cases b <;> simp at h ⊢
  exact h.le

theorem IEEE.lt_of_lt_of_lt {a b c : IEEE K} (h1 : a < b) (h2 : b < c) : a < c := by
  cases a <;> cases b <;> cases c <;> simp at h1 h2 ⊢
  exact h1.trans h2

theorem IEEE.not_lt_of_not_lt_of_not_lt {a b c : IEEE K} (hb : b ≠ IEEE.nan)
    (h1 : ¬ a < b) (h2 : ¬ b < c) : ¬ a < c := by
  cases a <;> cases b <;> cases c <;> simp at hb h1 h2 ⊢
  exact h2.trans h1

theorem IEEE.not_lt_self (a : IEEE K) : ¬ a < a := fun h => IEEE.not_lt_of_lt h h

end ieee_order

section ieee_le

variable {K : Type} [LinearOrderedField K]

theorem IEEE.fin_le_fin (a b : K) : (IEEE.fin a ≤ IEEE.fin b) ↔ a ≤ b := by
  show decide (a ≤ b) = true ↔ a ≤ b
  simp

/-- For two IEEE values that are not NaN, `b <= a` holds when `a < b` does
not. -/
theorem IEEE.le_of_not_lt {a b : IEEE K} (ha : a ≠ IEEE.nan) (hb : b ≠ IEEE.nan)
    (h : ¬ a < b) : b ≤ a := by
  cases a <;> cases b <;>
    first
    | exact absurd rfl ha
    | exact absurd rfl hb
    | exact absurd (IEEE.fin_lt_pinf _) h
    | exact absurd (IEEE.ninf_lt_fin _) h
    | exact absurd IEEE.ninf_lt_pinf h
    | exact (IEEE.fin_le_fin _ _).mpr (not_lt.mp fun hl => h ((IEEE.fin_lt_fin _ _).mpr hl))
    | rfl

end ieee_le

/-- In binary32, for a box whose three extents, computed as the code
computes them, are not NaN, no extent exceeds the extent along the axis that
`GetMaxAxis` returns. -/
theorem AABB.GetMaxAxis_not_lt (b : AABB F32)
    (hy : (b.m_Max.y - b.m_Min.y).val ≠ IEEE.nan) :
    (b.GetMaxAxis = 0 ∨ b.GetMaxAxis = 1 ∨ b.GetMaxAxis = 2) ∧
    ¬ b.extent b.GetMaxAxis < b.m_Max.x - b.m_Min.x ∧
    ¬ b.extent b.GetMaxAxis < b.m_Max.y - b.m_Min.y ∧
    ¬ b.extent b.GetMaxAxis < b.m_Max.z - b.m_Min.z := by
  unfold AABB.GetMaxAxis
  simp only [AABB.GetDiagnol, vec3.sub, gt_iff_lt]
  split_ifs with h1 h2
  · simp only [AABB.extent, if_true, true_or, true_and]
    exact ⟨IEEE.not_lt_self _, IEEE.not_lt_of_lt h1.1, IEEE.not_lt_of_lt h1.2⟩
  · have hx : ¬ b.m_Max.y - b.m_Min.y < b.m_Max.x - b.m_Min.x :=
      fun hc => h1 ⟨hc, IEEE.lt_of_lt_of_lt h2 hc⟩
    simp only [AABB.extent]
    simp only [one_ne_zero, if_false, if_true, true_or, or_true, true_and]
    exact ⟨hx, IEEE.not_lt_self _, IEEE.not_lt_of_lt h2⟩
  · have hx : ¬ b.m_Max.z - b.m_Min.z < b.m_Max.x - b.m_Min.x := by
      intro hc
      have h3 : ¬ b.m_Max.y - b.m_Min.y < b.m_Max.x - b.m_Min.x := fun h => h1 ⟨h, hc⟩
      exact IEEE.not_lt_of_not_lt_of_not_lt hy h2 h3 hc
    simp only [AABB.extent]
    norm_num
    exact ⟨hx, h2, IEEE.not_lt_self _⟩

theorem AABB.extent_ne_nan (b : AABB F32)
    (hx : (b.m_Max.x - b.m_Min.x).val ≠ IEEE.nan)
    (hy : (b.m_Max.y - b.m_Min.y).val ≠ IEEE.nan)
    (hz : (b.m_Max.z - b.m_Min.z).val ≠ IEEE.nan) (i : Int) :
    (b.extent i).val ≠ IEEE.nan := by
  unfold AABB.extent
  split_ifs <;> assumption

/-- C4: in binary32, for every box whose three extents `m_Max - m_Min`,
computed as the code computes them, are not NaN, `GetMaxAxis` returns 0, 1 or
2 and the extent of the box along the returned axis is greater than or equal
to its extent along each of the three axes, ties included. -/
theorem AABB.GetMaxAxis_maximal_binary32 (b : AABB F32)
    (hx : (b.m_Max.x - b.m_Min.x).val ≠ IEEE.nan)
    (hy : (b.m_Max.y - b.m_Min.y).val ≠ IEEE.nan)
    (hz : (b.m_Max.z - b.m_Min.z).val ≠ IEEE.nan) :
    (b.GetMaxAxis = 0 ∨ b.GetMaxAxis = 1 ∨ b.GetMaxAxis = 2) ∧
    b.m_Max.x - b.m_Min.x ≤ b.extent b.GetMaxAxis ∧
    b.m_Max.y - b.m_Min.y ≤ b.extent b.GetMaxAxis ∧
    b.m_Max.z - b.m_Min.z ≤ b.extent b.GetMaxAxis := by
  obtain ⟨h0, h1, h2, h3⟩ := AABB.GetMaxAxis_not_lt b hy
  have he := AABB.extent_ne_nan b hx hy hz b.GetMaxAxis
  exact ⟨h0, IEEE.le_of_not_lt he hx h1, IEEE.le_of_not_lt he hy h2,
    IEEE.le_of_not_lt he hz h3⟩

/-- Witness for C4, and an instance of a tie made by rounding: the box from
`(-1, 0, 0)` to `(2^24, 2^24, 1)`.  The exact extents along x and y are
`2^24 + 1` and `2^24`; in binary32 both differences are `2^24`, and
`GetMaxAxis` returns 1. -/
theorem AABB.GetMaxAxis_maximal_binary32_witness :
    AABB.GetMaxAxis (⟨vec3.map F32.ofRat ⟨-1, 0, 0⟩,
      vec3.map F32.ofRat ⟨16777216, 16777216, 1⟩, ⟨0, 0, 0⟩⟩ : AABB F32) = 1 ∧
    F32.ofRat 16777216 - F32.ofRat (-1) = F32.ofRat 16777216 ∧
    F32.ofRat 16777216 - F32.ofRat (-1) ≤
      AABB.extent (⟨vec3.map F32.ofRat ⟨-1, 0, 0⟩,
        vec3.map F32.ofRat ⟨16777216, 16777216, 1⟩, ⟨0, 0, 0⟩⟩ : AABB F32)
        (AABB.GetMaxAxis (⟨vec3.map F32.ofRat ⟨-1, 0, 0⟩,
          vec3.map F32.ofRat ⟨16777216, 16777216, 1⟩, ⟨0, 0, 0⟩⟩ : AABB F32)) :=
  ⟨by decide!, by decide!,
    (AABB.GetMaxAxis_maximal_binary32 (⟨vec3.map F32.ofRat ⟨-1, 0, 0⟩,
      vec3.map F32.ofRat ⟨16777216, 16777216, 1⟩, ⟨0, 0, 0⟩⟩ : AABB F32)
      (by decide!) (by decide!) (by decide!)).2.1⟩
